import Mathlib

/- Verification development for the xaibo declarative composition runtime.

   The definitions below are a shallow embedding of the Python sources:
     * src/xaibo/core/models/events.py   (EventType, Event)
     * src/xaibo/core/exchange.py        (Exchange, MethodProxy, Proxy)
     * src/xaibo/core/config.py          (AgentConfig.populate_implicits and helpers)
     * src/xaibo/core/agent.py           (Agent.handle_text / handle_image / ...)

   Python dictionaries are modelled as insertion-ordered association lists with
   update-in-place semantics, exceptions as an explicit error type, and the
   dynamic `isinstance` checks through an explicit conformance list carried by
   each value.  Wall-clock timestamps (the `time` field of Event) are not
   modelled. -/

namespace Xaibo

/- ### Python-level exceptions that the embedded code can raise. -/

inductive PyExc where
  /- an exception raised by user / module code, e.g. ValueError("boom") -/
  | userExc (clsName : String) (msg : String)
  /- AttributeError, as raised by a failed attribute lookup such as a missing
     enum member access -/
  | attributeError (attr : String)
  /- KeyError, as raised by a failed dict lookup -/
  | keyError (key : String)
deriving DecidableEq, Repr

/- ### EventType — src/xaibo/core/models/events.py, lines 7-9.
   The enum declares exactly two members: CALL = "call" and RESULT = "result". -/

inductive EventType where
  | call
  | result
deriving DecidableEq, Repr

/- The `.value` of each enum member. -/
def EventType.val : EventType → String
  | .call => "call"
  | .result => "result"

/- Attribute lookup on the EventType enum class: `EventType.CALL`,
   `EventType.RESULT` resolve; any other member access (in particular
   `EventType.EXCEPTION`, used by MethodProxy.__call__) raises AttributeError,
   modelled by `none`. -/
def EventType.member (s : String) : Option EventType :=
  if s = "CALL" then some .call
  else if s = "RESULT" then some .result
  else none

/- ### Event — src/xaibo/core/models/events.py, lines 12-21.
   Exactly the fields of the pydantic model (the wall-clock `time` field is not
   modelled).  The extra keyword arguments passed by MethodProxy._emit_event
   (exception, caller_id, module_id) are not fields of the model and are
   silently ignored by pydantic, so they do not appear here.  `α` is the type
   of argument/result payloads. -/

structure PEvent (α : Type) where
  agent_id : String
  event_name : String
  event_type : EventType
  module_class : String
  method_name : String
  call_id : String
  arguments : Option α
  result : Option α
deriving DecidableEq, Repr

/- ### Listeners.
   At the Exchange level a listener is a `(prefix, handler)` tuple
   (src/xaibo/core/exchange.py line 318).  The registry additionally keeps an
   optional agent-id filter for each listener
   (Xaibo.register_event_listener(prefix, handler, agent_id)).  The handler is
   modelled by the one thing the embedded code observes about it: whether it
   raises on a given event (`raisesOn e = true` means the handler throws when
   processing `e`). -/

structure Listener (α : Type) where
  pfx : String
  agentFilter : Option String
  raisesOn : PEvent α → Bool

/- Modelled from the spec: the listener registry code
   (`Registry.register_event_listener` / `registerListener(prefix, handler,
   agentIdFilter?)`) is not under src/ (only its callers and tests are).  Per
   the spec, a listener receives events "only if its agent-id filter (if any)
   matches the current agent"; an activation for agent `aid` therefore
   dispatches through exactly the registered listeners whose filter is absent
   or equals `aid`. -/
def listeners_for_agent (regs : List (Listener α)) (aid : String) : List (Listener α) :=
  regs.filter fun r =>
    match r.agentFilter with
    | none => true
    | some a => a == aid

/- ### MethodProxy._emit_event — src/xaibo/core/exchange.py, lines 287-324.
   Static context of a bound method proxy: names used to build the event name
   and correlation id.  `parentId` and `methodId` stand for the Python id() of
   the parent object and of the bound method. -/

structure ProxyInfo where
  pkg : String
  cls : String
  mname : String
  agentId : String
  callerId : String
  moduleId : String
  parentId : Nat
  methodId : Nat
deriving DecidableEq, Repr

/- Listener dispatch loop of _emit_event (lines 318-324): each listener whose
   registered name-prefix is empty or a prefix of the event name is invoked; a
   handler that raises is caught and reported (print + traceback), and the loop
   continues.  Returns the deliveries (listener index paired with the event, in
   invocation order) and the indices whose handler raised (each such exception
   was caught).  `i` is the index of the first listener in `ls`. -/
/- Python str.startswith(p): p is an initial segment of the character
   sequence.  (String.startsWith computes the same thing through byte-level
   loops that the kernel cannot evaluate, hence the character-list form.) -/
def strStartsWith (s p : String) : Bool :=
  p.data.isPrefixOf s.data

/- The dispatch condition of line 319: `not prefix or
   event.event_name.startswith(prefix)` (the empty string is falsy). -/
def matchesPfx (l : Listener α) (e : PEvent α) : Bool :=
  l.pfx == "" || strStartsWith e.event_name l.pfx

def dispatchFrom (e : PEvent α) : Nat → List (Listener α) → List (Nat × PEvent α) × List Nat
  | _, [] => ([], [])
  | i, l :: ls =>
    let (ds, cs) := dispatchFrom e (i + 1) ls
    if matchesPfx l e then
      ((i, e) :: ds, if l.raisesOn e then i :: cs else cs)
    else
      (ds, cs)

def dispatch (ls : List (Listener α)) (e : PEvent α) : List (Nat × PEvent α) × List Nat :=
  dispatchFrom e 0 ls

/- Correlation id, line 312: f"{id(self._parent)}-{id(self._method)}-{self._call_id}". -/
def mkCallId (info : ProxyInfo) (counter : Nat) : String :=
  toString info.parentId ++ "-" ++ toString info.methodId ++ "-" ++ toString counter

/- Fully qualified event name, line 304:
   f"{module_package}.{module_class}.{method_name}.{event_type.value}". -/
def mkEventName (info : ProxyInfo) (et : EventType) : String :=
  info.pkg ++ "." ++ info.cls ++ "." ++ info.mname ++ "." ++ et.val

/- _emit_event itself: with zero listeners it returns before constructing any
   event object (lines 296-297); otherwise it builds the Event and dispatches.
   Returns (event object constructed if any, deliveries, caught indices). -/
def emit_event (ls : List (Listener α)) (info : ProxyInfo) (counter : Nat)
    (et : EventType) (arguments : Option α) (result : Option α) :
    Option (PEvent α) × List (Nat × PEvent α) × List Nat :=
  if ls.length = 0 then (none, [], [])
  else
    let e : PEvent α :=
      { agent_id := info.agentId
        event_name := mkEventName info et
        event_type := et
        module_class := info.cls
        method_name := info.mname
        call_id := mkCallId info counter
        arguments := arguments
        result := result }
    let (ds, cs) := dispatch ls e
    (some e, ds, cs)

/- ### MethodProxy.__call__ — src/xaibo/core/exchange.py, lines 326-362. -/

/- Behavior of the wrapped bound method on the given invocation: it either
   returns a value or raises. -/
inductive MethodBehavior (α : Type) where
  | ok (v : α)
  | raises (e : PyExc)
deriving DecidableEq, Repr

/- Calling the un-wrapped implementation directly. -/
def directCall : MethodBehavior α → Except PyExc α
  | .ok v => .ok v
  | .raises e => .error e

/- Observable trace of one invocation of the call-wrapper. -/
structure CallTrace (α : Type) where
  /- event objects constructed, in order -/
  built : List (PEvent α)
  /- (listener index, event) for each listener handler invocation, in order -/
  deliveries : List (Nat × PEvent α)
  /- listener indices whose handler raised; each was caught and reported -/
  caught : List Nat
  /- what the caller of the proxied method observes -/
  outcome : Except PyExc α
deriving Repr

/- The body of MethodProxy.__call__: increment self._call_id, emit the CALL
   event, run the wrapped method; on success emit RESULT and return the value
   unchanged; on a propagating failure the except block first evaluates the
   attribute `EventType.EXCEPTION` — which is not a member of the enum, so the
   lookup itself raises AttributeError, which replaces the original failure.
   (Had the member existed, an event of that type would have been emitted and
   the original failure re-raised, which is the `some et` branch.)
   `callId` is the proxy's counter before the call (0 for a fresh proxy). -/
def methodCall (ls : List (Listener α)) (info : ProxyInfo) (callId : Nat)
    (beh : MethodBehavior α) (argsPayload : α) : CallTrace α :=
  let cid := callId + 1
  let (be1, d1, c1) := emit_event ls info cid .call (some argsPayload) none
  match beh with
  | .ok v =>
    let (be2, d2, c2) := emit_event ls info cid .result none (some v)
    { built := be1.toList ++ be2.toList
      deliveries := d1 ++ d2
      caught := c1 ++ c2
      outcome := .ok v }
  | .raises e =>
    match EventType.member "EXCEPTION" with
    | some et =>
      let (be2, d2, c2) := emit_event ls info cid et none none
      { built := be1.toList ++ be2.toList
        deliveries := d1 ++ d2
        caught := c1 ++ c2
        outcome := .error e }
    | none =>
      { built := be1.toList
        deliveries := d1
        caught := c1
        outcome := .error (.attributeError "EXCEPTION") }

/- Replace a listener's handler by one that never raises (used to compare a
   run against the same run with well-behaved handlers). -/
def silence (l : Listener α) : Listener α :=
  { l with raisesOn := fun _ => false }

/- ### Configuration model — src/xaibo/core/config.py, lines 7-24.
   The opaque per-module settings blob (`config`) is not modelled: the core
   never inspects it. -/

structure ModuleConfig where
  module : String
  id : String
  provides : Option (List String) := none
  uses : Option (List String) := none
deriving DecidableEq, Repr

structure ExchangeConfig where
  module : String
  protocol : String
  provider : String
deriving DecidableEq, Repr

structure AgentConfig where
  id : String
  modules : List ModuleConfig
  exchange : Option (List ExchangeConfig) := none
deriving DecidableEq, Repr

/- The exchange list as iterated by the code (after _initialize_exchange_list
   it is never None). -/
def AgentConfig.exchangeList (c : AgentConfig) : List ExchangeConfig :=
  c.exchange.getD []

/- ### The Python class environment.
   _import_module_class resolves an implementation reference through the
   Python import system; introspection then reads the class.  A ClassDef records
   everything the embedded code observes about a class:
     * __name__ and __module__ (used for event names),
     * the result of its `provides()` classmethod, if defined,
     * __init__.__annotations__ as (parameter name, annotation type name)
       pairs in declaration order (the return annotation excluded, `self`
       unannotated),
     * the set of type names T for which isinstance(instance, T) holds. -/

structure ClassDef where
  clsName : String
  pkg : String
  providesFn : Option (List String) := none
  initAnnotations : List (String × String) := []
  conforms : List String := []
deriving DecidableEq, Repr

/- Import environment: import path -> class; a path absent from the
   environment raises ImportError. -/
def Env := List (String × ClassDef)

def importClass (env : Env) (path : String) : Option ClassDef :=
  List.lookup path env

/- ### defaultdict(list) used by _get_protocol_providers, as an ordered
   association list from protocol name to provider module ids. -/

def ProvMap := List (String × List String)

def ProvMap.get (m : ProvMap) (k : String) : List String :=
  (List.lookup k m).getD []

/- Append one provider id to the list at key `k` (creating the key if new). -/
def ProvMap.add : ProvMap → String → String → ProvMap
  | [], k, v => [(k, [v])]
  | (k', vs) :: rest, k, v =>
    if k' = k then (k', vs ++ [v]) :: rest
    else (k', vs) :: ProvMap.add rest k v

/- ### Errors raised by AgentConfig.populate_implicits (both are ValueError
   in Python; the payloads are the values interpolated into the message). -/

inductive CfgError where
  /- "Multiple providers found for protocol {protocol} used by module
     {moduleId}: {providers}"  (config.py line 155) -/
  | multipleProviders (protocol : String) (moduleId : String) (providers : List String)
  /- "Multiple handlers found for message protocol {protocol}: {handlers}"
     (config.py line 283) -/
  | multipleMessageHandlers (protocol : String) (handlers : List String)
deriving DecidableEq, Repr

/- ### AgentConfig._add_implicit_response_module — config.py, lines 97-107. -/

def response_module_config : ModuleConfig :=
  { module := "xaibo.primitives.modules.ResponseHandler"
    id := "__response__"
    provides := some ["ResponseProtocol"] }

def AgentConfig.add_implicit_response_module (c : AgentConfig) : AgentConfig :=
  if c.modules.any (fun m => m.id == "__response__") then c
  else { c with modules := c.modules ++ [response_module_config] }

/- ### AgentConfig._initialize_exchange_list — config.py, lines 109-112. -/

def AgentConfig.initialize_exchange_list (c : AgentConfig) : AgentConfig :=
  { c with exchange := some c.exchangeList }

/- ### AgentConfig._get_protocol_providers — config.py, lines 159-188.
   Walks the modules in order; records each declared provided protocol, then
   asks the class (when importable and when it defines `provides()`) for
   further protocols, appending any that the module does not already declare
   both to the module's provides list and to the map.  Returns the updated
   modules together with the provider map; an unimportable class is skipped. -/

def introspectProvides (env : Env) (m : ModuleConfig) (acc : ProvMap) :
    ModuleConfig × ProvMap :=
  match importClass env m.module with
  | none => (m, acc)
  | some cls =>
    match cls.providesFn with
    | none => (m, acc)
    | some protos =>
      let step := fun (st : Option (List String) × ProvMap) (p : String) =>
        let cur := st.1.getD []
        if p ∈ cur then st
        else (some (cur ++ [p]), st.2.add p m.id)
      let st := protos.foldl step (m.provides, acc)
      ({ m with provides := st.1 }, st.2)

def get_protocol_providers (env : Env) :
    List ModuleConfig → ProvMap → List ModuleConfig × ProvMap
  | [], acc => ([], acc)
  | m :: ms, acc =>
    let acc1 := (m.provides.getD []).foldl (fun a p => a.add p m.id) acc
    let (m', acc2) := introspectProvides env m acc1
    let (ms', acc3) := get_protocol_providers env ms acc2
    (m' :: ms', acc3)

/- ### AgentConfig._get_module_requirements — config.py, lines 190-233.
   Per-module constructor requirements: the annotated __init__ parameters
   other than `self` and `config`, as (parameter name, type name) pairs; an
   unimportable class yields no requirements, and modules with an empty
   requirement dict are left out of the result. -/

def moduleRequirements (env : Env) (m : ModuleConfig) : List (String × String) :=
  match importClass env m.module with
  | none => []
  | some cls => cls.initAnnotations.filter fun pt => pt.1 ≠ "self" ∧ pt.1 ≠ "config"

def get_module_requirements (env : Env) (ms : List ModuleConfig) :
    List (String × List (String × String)) :=
  (ms.map fun m => (m.id, moduleRequirements env m)).filter fun r => !r.2.isEmpty

/- ### AgentConfig._add_implicit_protocol_exchanges — config.py, lines 114-157. -/

/- The uses-update step (lines 125-132): for each module with recorded
   constructor requirements, append each required type name not already in the
   module's uses list (turning a None uses into a list first). -/
def updateUses (reqs : List (String × List (String × String))) (m : ModuleConfig) :
    ModuleConfig :=
  match List.lookup m.id reqs with
  | none => m
  | some rs =>
    let us := rs.foldl
      (fun (us : List String) pt => if pt.2 ∈ us then us else us ++ [pt.2])
      (m.uses.getD [])
    { m with uses := some us }

/- The inner loop over one module's used protocols (lines 137-157): skip a
   protocol the module is already configured for; with exactly one provider
   synthesize an exchange entry; with more than one raise. -/
def implicitExchangesFor (provs : ProvMap) (mid : String) :
    List String → List ExchangeConfig → Except CfgError (List ExchangeConfig)
  | [], ex => .ok ex
  | p :: ps, ex =>
    if ex.any (fun e => e.module == mid && e.protocol == p) then
      implicitExchangesFor provs mid ps ex
    else
      match provs.get p with
      | [] => implicitExchangesFor provs mid ps ex
      | [pr] => implicitExchangesFor provs mid ps (ex ++ [⟨mid, p, pr⟩])
      | prs => .error (.multipleProviders p mid prs)

/- The outer loop over modules (line 135): only modules with a truthy uses
   list are considered. -/
def implicitExchangesLoop (provs : ProvMap) :
    List ModuleConfig → List ExchangeConfig → Except CfgError (List ExchangeConfig)
  | [], ex => .ok ex
  | m :: ms, ex =>
    match m.uses with
    | none => implicitExchangesLoop provs ms ex
    | some [] => implicitExchangesLoop provs ms ex
    | some us => do
      let ex' ← implicitExchangesFor provs m.id us ex
      implicitExchangesLoop provs ms ex'

def AgentConfig.add_implicit_protocol_exchanges (env : Env) (c : AgentConfig) :
    Except CfgError AgentConfig := do
  let ms1 := (get_protocol_providers env c.modules []).1
  let provs := (get_protocol_providers env c.modules []).2
  let reqs := get_module_requirements env ms1
  let ms2 := ms1.map (updateUses reqs)
  let ex ← implicitExchangesLoop provs ms2 c.exchangeList
  .ok { c with modules := ms2, exchange := some ex }

/- ### AgentConfig._add_implicit_entry_handlers — config.py, lines 260-306. -/

def message_handler_protocols : List String :=
  [ "TextMessageHandlerProtocol"
  , "ImageMessageHandlerProtocol"
  , "AudioMessageHandlerProtocol"
  , "VideoMessageHandlerProtocol" ]

/- _get_message_handlers (lines 287-306): ids of the modules declaring each of
   the four message-handling protocols. -/
def messageHandlersFor (ms : List ModuleConfig) (p : String) : List String :=
  (ms.filter fun m => p ∈ m.provides.getD []).map (·.id)

def entryHandlersLoop (c : AgentConfig) :
    List String → List ExchangeConfig → Except CfgError (List ExchangeConfig)
  | [], ex => .ok ex
  | p :: ps, ex =>
    if ex.any (fun e => e.module == "__entry__" && e.protocol == p) then
      entryHandlersLoop c ps ex
    else
      match messageHandlersFor c.modules p with
      | [] => entryHandlersLoop c ps ex
      | [h] => entryHandlersLoop c ps (ex ++ [⟨"__entry__", p, h⟩])
      | hs => .error (.multipleMessageHandlers p hs)

def AgentConfig.add_implicit_entry_handlers (c : AgentConfig) :
    Except CfgError AgentConfig := do
  let ex ← entryHandlersLoop c message_handler_protocols c.exchangeList
  .ok { c with exchange := some ex }

/- ### AgentConfig.populate_implicits — config.py, lines 81-95 (also run by
   from_yaml on every parsed document, lines 57-70). -/

def AgentConfig.populate_implicits (env : Env) (c : AgentConfig) :
    Except CfgError AgentConfig := do
  let c1 := c.add_implicit_response_module
  let c2 := c1.initialize_exchange_list
  let c3 ← c2.add_implicit_protocol_exchanges env
  c3.add_implicit_entry_handlers

/- Module ids of a config, in declaration order. -/
def AgentConfig.moduleIds (c : AgentConfig) : List String :=
  c.modules.map (·.id)

/- The provider candidates the resolver computes for protocol X (with no
   introspectable classes): the provider-map entry built over the modules of
   the config after the response-module stage. -/
def declared_provider_candidates (c : AgentConfig) (X : String) : List String :=
  ProvMap.get (get_protocol_providers [] c.add_implicit_response_module.modules []).2 X

/- ### Runtime values — module instances as seen by the Exchange.
   A value is either a raw instance (of the class named `clsName`, with the
   conformance list of its class, tagged by the module or override id it was
   created for — Python distinguishes these by object identity) or an
   instrumentation Proxy wrapping another value
   (src/xaibo/core/exchange.py, class Proxy). -/

inductive PyVal where
  | obj (clsName : String) (conforms : List String) (tag : String)
  | proxy (inner : PyVal) (agentId : String) (callerId : String) (moduleId : String)
deriving DecidableEq, Repr

def PyVal.isProxy : PyVal → Bool
  | .proxy _ _ _ _ => true
  | .obj _ _ _ => false

/- isinstance(v, T) for an annotation type named T.  Raw instances conform to
   exactly the types of their class's conformance list.  The embedded control
   flow never applies isinstance to a Proxy (module_instances holds raw
   values); a Proxy is modelled as conforming to nothing. -/
def PyVal.isinst : PyVal → String → Bool
  | .obj _ cf _, t => t ∈ cf
  | .proxy _ _ _ _, _ => false

/- ### Errors raised by Exchange._instantiate_modules and its helpers (all
   ValueError / KeyError / ImportError in Python). -/

inductive XError where
  /- _import_module_class failing to import the referenced class -/
  | importError (path : String)
  /- "Multiple parameters match protocol {protocol} in module {moduleId}"
     (exchange.py line 202) -/
  | multipleParams (protocol : String) (moduleId : String)
  /- "No parameter found matching protocol {protocol} and type of {provider}
     in module {moduleId}" (exchange.py line 204) -/
  | noMatchingParam (protocol : String) (provider : String) (moduleId : String)
  /- "Circular dependency detected among modules: {remaining}" (line 175);
     the payload is the remaining (uninstantiated) module set -/
  | circularDependency (remaining : List String)
  /- "Multiple message handlers found" (line 229) -/
  | multipleHandlers
  /- "No message handler found in exchange config" (line 233) -/
  | noHandler
  /- a failing dictionary lookup -/
  | keyError (key : String)
  /- loop-bound exhaustion of the embedding; shown unreachable where needed -/
  | fuelOut
deriving DecidableEq, Repr

/- Python dict assignment d[k] = v on a string-keyed dict: update in place if
   the key exists, else append. -/
def assocUpd : List (String × β) → String → β → List (String × β)
  | [], k, v => [(k, v)]
  | (k', v') :: rest, k, v =>
    if k' = k then (k', v) :: rest else (k', v') :: assocUpd rest k v

/- dict.update: apply every entry of the second dict to the first. -/
def dictMerge (d : List (String × β)) (d' : List (String × β)) : List (String × β) :=
  d'.foldl (fun acc kv => assocUpd acc kv.1 kv.2) d

/- Key membership (`k in d`). -/
def hasKey (d : List (String × β)) (k : String) : Bool :=
  d.any fun kv => kv.1 == k

/- ### Override bindings — Exchange.__init__ / _instantiate_modules, lines
   120-125.  The caller's override_bindings dict maps a protocol key — either
   a class object or a string type name — to a pre-built instance.  Keys of a
   Python dict are distinct. -/

inductive OverrideKey where
  | byType (typeName : String)
  | byName (typeName : String)
deriving DecidableEq, Repr

/- module_instances entries created for the overrides: override_{idx} -> value. -/
def initOverrideInsts (ob : List (OverrideKey × PyVal)) : List (String × PyVal) :=
  ob.enum.map fun iv => ("override_" ++ toString iv.1, iv.2.2)

/- self.overrides: protocol key -> override id. -/
def initOverrideMap (ob : List (OverrideKey × PyVal)) : List (OverrideKey × String) :=
  ob.enum.map fun iv => (iv.2.1, "override_" ++ toString iv.1)

/- ### Exchange._get_module_dependencies — exchange.py, lines 179-207. -/

def get_module_dependencies (insts : List (String × PyVal)) (mid : String)
    (cls : ClassDef) :
    List ExchangeConfig → List (String × PyVal) → Except XError (List (String × PyVal))
  | [], deps => .ok deps
  | e :: es, deps =>
    if e.module == mid then
      match List.lookup e.provider insts with
      | none => .error (.keyError e.provider)
      | some inst =>
        match cls.initAnnotations.filter (fun pt => inst.isinst pt.2) with
        | [] => .error (.noMatchingParam e.protocol e.provider mid)
        | [pt] => get_module_dependencies insts mid cls es (assocUpd deps pt.1 inst)
        | _ => .error (.multipleParams e.protocol mid)
    else
      get_module_dependencies insts mid cls es deps

/- ### Exchange._get_overrides_by_type — exchange.py, lines 209-221.
   For each annotated constructor parameter, first a direct type-object match
   against the overrides dict, then a match on the type's name. -/

def overrideFor (ovrs : List (OverrideKey × String)) (typeName : String) :
    Option String :=
  match List.lookup (OverrideKey.byType typeName) ovrs with
  | some oid => some oid
  | none => List.lookup (OverrideKey.byName typeName) ovrs

def get_overrides_by_type (insts : List (String × PyVal))
    (ovrs : List (OverrideKey × String)) :
    List (String × String) → List (String × PyVal) → Except XError (List (String × PyVal))
  | [], deps => .ok deps
  | pt :: pts, deps =>
    match overrideFor ovrs pt.2 with
    | none => get_overrides_by_type insts ovrs pts deps
    | some oid =>
      match List.lookup oid insts with
      | none => .error (.keyError oid)
      | some v => get_overrides_by_type insts ovrs pts (assocUpd deps pt.1 v)

/- ### Exchange._get_proxied_dependencies — exchange.py, lines 237-245.
   module_keys is the reverse of module_instances (a value-keyed dict: later
   entries overwrite earlier ones); every dependency value is wrapped in a
   Proxy carrying the agent id, the consuming module as caller and the provider
   key as module id. -/

def revKey (insts : List (String × PyVal)) (v : PyVal) : Option String :=
  insts.foldl (fun acc kv => if kv.2 == v then some kv.1 else acc) none

def get_proxied_dependencies (agentId : String) (insts : List (String × PyVal))
    (callerId : String) :
    List (String × PyVal) → Except XError (List (String × PyVal))
  | [] => .ok []
  | kv :: kvs => do
    match revKey insts kv.2 with
    | none => .error (.keyError "instance")
    | some mkey =>
      let rest ← get_proxied_dependencies agentId insts callerId kvs
      .ok ((kv.1, PyVal.proxy kv.2 agentId callerId mkey) :: rest)

/- ### The record kept for each construction: which proxied dependency kwargs
   were handed to the module's constructor (the opaque settings blob is passed
   alongside and is not recorded). -/

structure BuildRecord where
  moduleId : String
  deps : List (String × PyVal)
deriving DecidableEq, Repr

/- ### One pass of the fixed-point loop of Exchange._instantiate_modules
   (exchange.py, lines 133-171): scan the modules in declaration order,
   instantiate every module that is not yet built and whose exchange-config
   dependencies all point to already-present instances; overrides never count
   (the satisfaction check consults module_instances keys, and overrides are
   stored under override_{idx}). -/

/- The dependency check of lines 141-151: every exchange entry naming this
   module as consumer must point at an already-present instance key (override
   entries are keyed override_{idx}, so an override never satisfies an edge
   whose provider is a module id). -/
def depsSatisfied (exs : List ExchangeConfig) (mid : String)
    (insts : List (String × PyVal)) : Bool :=
  exs.all fun e => (e.module != mid) || hasKey insts e.provider

/- Truthiness of module_config.uses. -/
def usesTruthy (mc : ModuleConfig) : Bool :=
  match mc.uses with
  | some (_ :: _) => true
  | _ => false

def instPass (env : Env) (cfg : AgentConfig) (ovrs : List (OverrideKey × String)) :
    List ModuleConfig → List (String × PyVal) → List String → Bool → List BuildRecord →
    Except XError (List (String × PyVal) × List String × Bool × List BuildRecord)
  | [], insts, rem, prog, log => .ok (insts, rem, prog, log)
  | mc :: ms, insts, rem, prog, log =>
    if mc.id ∉ rem then
      instPass env cfg ovrs ms insts rem prog log
    else
      let usesT := usesTruthy mc
      let satisfied := depsSatisfied cfg.exchangeList mc.id insts
      if usesT && !satisfied then
        instPass env cfg ovrs ms insts rem prog log
      else
        match importClass env mc.module with
        | none => .error (.importError mc.module)
        | some cls =>
          if usesT then do
            let deps ← get_module_dependencies insts mc.id cls cfg.exchangeList []
            let deps ← get_overrides_by_type insts ovrs cls.initAnnotations deps
            let pdeps ← get_proxied_dependencies cfg.id insts mc.id deps
            let v := PyVal.obj cls.clsName cls.conforms mc.id
            instPass env cfg ovrs ms (assocUpd insts mc.id v) (rem.erase mc.id) true
              (log ++ [⟨mc.id, pdeps⟩])
          else
            let v := PyVal.obj cls.clsName cls.conforms mc.id
            instPass env cfg ovrs ms (assocUpd insts mc.id v) (rem.erase mc.id) true
              (log ++ [⟨mc.id, []⟩])

/- The while loop (lines 133-175): repeat passes until the remaining set is
   empty; a pass without progress raises the circular-dependency error naming
   the remaining set.  `fuel` bounds the number of passes; remaining-length
   plus one passes always suffice, since every completed pass that recurses
   made progress. -/
def instLoopF (env : Env) (cfg : AgentConfig) (ovrs : List (OverrideKey × String)) :
    Nat → List (String × PyVal) → List String → List BuildRecord →
    Except XError (List (String × PyVal) × List BuildRecord)
  | 0, _, _, _ => .error .fuelOut
  | fuel + 1, insts, rem, log =>
    if rem.isEmpty then .ok (insts, log)
    else
      match instPass env cfg ovrs cfg.modules insts rem false log with
      | .error e => .error e
      | .ok (insts', rem', prog, log') =>
        if prog then instLoopF env cfg ovrs fuel insts' rem' log'
        else .error (.circularDependency rem')

/- ### Exchange._get_entry_module — exchange.py, lines 223-235. -/

def get_entry_module (insts : List (String × PyVal)) :
    List ExchangeConfig → Option PyVal → Except XError PyVal
  | [], none => .error .noHandler
  | [], some v => .ok v
  | e :: es, acc =>
    if e.module == "__entry__" then
      match acc with
      | some _ => .error .multipleHandlers
      | none =>
        match List.lookup e.provider insts with
        | none => .error (.keyError e.provider)
        | some v => get_entry_module insts es (some v)
    else
      get_entry_module insts es acc

/- ### Exchange._instantiate_modules — exchange.py, lines 116-177: seed the
   instance dict with the overrides, run the fixed-point loop over the set of
   declared module ids, then store the (raw) entry instance under the
   reserved id "__entry__". -/

def instantiate_modules (env : Env) (cfg : AgentConfig)
    (ob : List (OverrideKey × PyVal)) :
    Except XError (List (String × PyVal) × List BuildRecord) := do
  let insts0 := initOverrideInsts ob
  let ovrs := initOverrideMap ob
  let rem0 := (cfg.modules.map (·.id)).dedup
  let (insts1, log) ← instLoopF env cfg ovrs (rem0.length + 1) insts0 rem0 []
  let entry ← get_entry_module insts1 cfg.exchangeList none
  .ok (assocUpd insts1 "__entry__" entry, log)

/- ### Exchange.get_module — exchange.py, lines 247-259: look the module up
   and hand back a freshly wrapped Proxy scoped to the caller (module
   instances are ordinary objects, hence truthy). -/

def Exchange.get_module (agentId : String) (insts : List (String × PyVal))
    (moduleName : String) (callerId : String) : Option PyVal :=
  (List.lookup moduleName insts).map fun v =>
    PyVal.proxy v agentId callerId moduleName

/- ### Agent — src/xaibo/core/agent.py.
   For the agent-level message operations the modules dict maps ids to live
   objects; what the Agent code observes about such an object is which
   attributes it has (hasattr) and what invoking a method returns.  `α` is the
   message payload type, `β` the type of method return values (module-level
   failures are out of scope here: invocations are total). -/

structure ModObj (α β : Type) where
  methodNames : List String
  invoke : String → Option α → β

structure AgentD (α β : Type) where
  id : String
  modules : List (String × ModObj α β)

/- Common body of Agent.handle_text / handle_image / handle_audio /
   handle_video (agent.py lines 20-87): check hasattr on the entry module and
   raise AttributeError if absent; otherwise invoke the entry handler,
   discard its return value, and return get_response() of the module stored
   under "__response__".  The first component of the result lists the module
   method invocations actually performed, in order. -/
def AgentD.handle_message (a : AgentD α β) (mname : String) (errMsg : String)
    (payload : α) : List (String × String) × Except PyExc β :=
  match List.lookup "__entry__" a.modules with
  | none => ([], .error (.keyError "__entry__"))
  | some entry =>
    if mname ∈ entry.methodNames then
      let _discarded := entry.invoke mname (some payload)
      match List.lookup "__response__" a.modules with
      | none => ([("__entry__", mname)], .error (.keyError "__response__"))
      | some resp =>
        ( [("__entry__", mname), ("__response__", "get_response")]
        , .ok (resp.invoke "get_response" none) )
    else
      ([], .error (.attributeError errMsg))

def AgentD.handle_text (a : AgentD α β) (text : α) :
    List (String × String) × Except PyExc β :=
  a.handle_message "handle_text"
    "Entry module does not implement TextMessageHandlerProtocol" text

def AgentD.handle_image (a : AgentD α β) (image : α) :
    List (String × String) × Except PyExc β :=
  a.handle_message "handle_image"
    "Entry module does not implement ImageMessageHandlerProtocol" image

def AgentD.handle_audio (a : AgentD α β) (audio : α) :
    List (String × String) × Except PyExc β :=
  a.handle_message "handle_audio"
    "Entry module does not implement AudioMessageHandlerProtocol" audio

def AgentD.handle_video (a : AgentD α β) (video : α) :
    List (String × String) × Except PyExc β :=
  a.handle_message "handle_video"
    "Entry module does not implement VideoMessageHandlerProtocol" video

/- ### Concrete sample data used by closed theorems below. -/

def sampleInfo : ProxyInfo :=
  { pkg := "pkg", cls := "Mod", mname := "op", agentId := "agent-1"
    callerId := "caller", moduleId := "mod", parentId := 7, methodId := 9 }

def sampleExc : PyExc := .userExc "ValueError" "boom"

/- A listener with an empty prefix, no agent filter, whose handler never
   raises. -/
def quietListener : Listener String :=
  { pfx := "", agentFilter := none, raisesOn := fun _ => false }

/- A listener registered for the name prefix "pkg.Mod.op". -/
def opListener : Listener String :=
  { pfx := "pkg.Mod.op", agentFilter := none, raisesOn := fun _ => false }

/- A sample event with the given fully qualified name. -/
def mkSampleEvent (name : String) : PEvent String :=
  { agent_id := "agent-1", event_name := name, event_type := .call
    module_class := "Mod", method_name := "op", call_id := "7-9-1"
    arguments := none, result := none }

/- A sample agent whose entry module handles only text and whose response
   collector returns a fixed response. -/
def sampleEntry : ModObj String String :=
  { methodNames := ["handle_text"], invoke := fun _ _ => "ignored handler return" }

def sampleResp : ModObj String String :=
  { methodNames := ["get_response"], invoke := fun _ _ => "the response" }

def sampleAgent : AgentD String String :=
  { id := "a", modules := [("__entry__", sampleEntry), ("__response__", sampleResp)] }

/- A config in which the capability ToolProviderProtocol has two declared
   providers while module "m" requires it with no explicit binding. -/
def c5cfg : AgentConfig :=
  { id := "a"
    modules :=
      [ { module := "p.P1", id := "p1", provides := some ["ToolProviderProtocol"] }
      , { module := "p.P2", id := "p2", provides := some ["ToolProviderProtocol"] }
      , { module := "p.M", id := "m", uses := some ["ToolProviderProtocol"] } ] }

/- A minimal well-formed config: no declared modules at all. -/
def emptyCfg : AgentConfig := { id := "w9", modules := [] }

/- A two-module circular dependency: module a requires XProto provided only
   by b, and b requires YProto provided only by a. -/
def c4env : Env :=
  [ ("mods.A", { clsName := "A", pkg := "mods"
                 initAnnotations := [("x", "XProto")], conforms := ["YProto"] })
  , ("mods.B", { clsName := "B", pkg := "mods"
                 initAnnotations := [("y", "YProto")], conforms := ["XProto"] }) ]

def c4mA : ModuleConfig := { module := "mods.A", id := "a", uses := some ["XProto"] }

def c4mB : ModuleConfig := { module := "mods.B", id := "b", uses := some ["YProto"] }

def c4cfg : AgentConfig :=
  { id := "agent4", modules := [c4mA, c4mB]
    exchange := some [⟨"a", "XProto", "b"⟩, ⟨"b", "YProto", "a"⟩] }

/- An override binding that satisfies the XProto edge (by type name). -/
def c4override : List (OverrideKey × PyVal) :=
  [(OverrideKey.byName "XProto", PyVal.obj "MockX" ["XProto"] "mock")]

/- A two-module echo agent: echo consumes ResponseProtocol provided by resp
   and is the entry text handler. -/
def c3env : Env :=
  [ ("mods.Resp", { clsName := "Resp", pkg := "mods"
                    conforms := ["ResponseProtocol"] })
  , ("mods.Echo", { clsName := "Echo", pkg := "mods"
                    initAnnotations := [("response", "ResponseProtocol")]
                    conforms := ["TextMessageHandlerProtocol"] }) ]

def c3cfg : AgentConfig :=
  { id := "agent3"
    modules :=
      [ { module := "mods.Resp", id := "resp"
          provides := some ["ResponseProtocol"] }
      , { module := "mods.Echo", id := "echo"
          provides := some ["TextMessageHandlerProtocol"]
          uses := some ["ResponseProtocol"] } ]
    exchange := some
      [ ⟨"echo", "ResponseProtocol", "resp"⟩
      , ⟨"__entry__", "TextMessageHandlerProtocol", "echo"⟩ ] }

/- A config whose author declared two modules with the reserved id
   "__response__" (pydantic parsing performs no duplicate-id validation). -/
def dupResponseCfg : AgentConfig :=
  { id := "a"
    modules :=
      [ { module := "p.M", id := "__response__", provides := some ["ResponseProtocol"] }
      , { module := "p.M2", id := "__response__", provides := some ["ResponseProtocol"] } ] }

/- ## Theorems -/

/- Silencing a listener changes neither its registered prefix nor which events
   it matches. -/
theorem matchesPfx_silence (l : Listener α) (e : PEvent α) :
    matchesPfx (silence l) e = matchesPfx l e := by
  simp [matchesPfx, silence]

/- Dispatch invokes exactly the same listeners, in the same order, whether or
   not their handlers raise; with raise-free handlers nothing is caught. -/
theorem dispatchFrom_silence (e : PEvent α) (ls : List (Listener α)) :
    ∀ i : Nat, dispatchFrom e i (ls.map silence) = ((dispatchFrom e i ls).1, []) := by
  induction ls with
  | nil => intro i; rfl
  | cons l ls ih =>
    intro i
    simp only [List.map_cons, dispatchFrom, ih (i + 1), matchesPfx_silence]
    by_cases h : matchesPfx l e
    · simp [h, silence]
    · simp [h]

/- Membership in the delivery list of dispatch: listener number j is invoked
   on event e exactly when j is in range and its prefix condition holds. -/
theorem dispatchFrom_mem (e ev : PEvent α) (j : Nat) :
    ∀ (ls : List (Listener α)) (i : Nat),
      (j, ev) ∈ (dispatchFrom e i ls).1
        ↔ ev = e ∧ ∃ k, ∃ hk : k < ls.length,
            j = i + k ∧ matchesPfx (ls.get ⟨k, hk⟩) e = true := by
  intro ls
  induction ls with
  | nil => intro i; simp [dispatchFrom]
  | cons l ls ih =>
    intro i
    simp only [dispatchFrom]
    by_cases h : matchesPfx l e
    · simp only [h, if_pos]
      constructor
      · intro hm
        rcases List.mem_cons.mp hm with heq | htail
        · have hj : j = i := congrArg Prod.fst heq
          have hev : ev = e := congrArg Prod.snd heq
          exact ⟨hev, 0, Nat.succ_pos _, by omega, h⟩
        · obtain ⟨hev, k, hk, hj, hmk⟩ := (ih (i + 1)).mp htail
          exact ⟨hev, k + 1, Nat.succ_lt_succ hk, by omega, hmk⟩
      · rintro ⟨rfl, k, hk, hj, hmk⟩
        cases k with
        | zero =>
          have hj' : j = i := by omega
          subst hj'
          exact List.mem_cons.mpr (Or.inl rfl)
        | succ k =>
          refine List.mem_cons.mpr (Or.inr ((ih (i + 1)).mpr ?_))
          exact ⟨rfl, k, Nat.lt_of_succ_lt_succ hk, by omega, hmk⟩
    · simp only [h, if_neg, Bool.false_eq_true, not_false_iff]
      rw [ih (i + 1)]
      constructor
      · rintro ⟨rfl, k, hk, hj, hmk⟩
        exact ⟨rfl, k + 1, Nat.succ_lt_succ hk, by omega, hmk⟩
      · rintro ⟨rfl, k, hk, hj, hmk⟩
        cases k with
        | zero =>
          exact absurd hmk (by simpa using h)
        | succ k =>
          exact ⟨rfl, k, Nat.lt_of_succ_lt_succ hk, by omega, hmk⟩

theorem dispatch_silence (ls : List (Listener α)) (e : PEvent α) :
    dispatch (ls.map silence) e = ((dispatch ls e).1, []) :=
  dispatchFrom_silence e ls 0

theorem emit_event_silence (ls : List (Listener α)) (info : ProxyInfo) (counter : Nat)
    (et : EventType) (args res : Option α) :
    emit_event (ls.map silence) info counter et args res
      = ((emit_event ls info counter et args res).1,
         (emit_event ls info counter et args res).2.1, []) := by
  simp only [emit_event, List.length_map]
  by_cases h : ls.length = 0
  · simp [h]
  · simp [h, dispatch_silence]

/- Every caught listener index was actually invoked on the event. -/
theorem dispatchFrom_caught (e : PEvent α) :
    ∀ (ls : List (Listener α)) (i j : Nat),
      j ∈ (dispatchFrom e i ls).2 → (j, e) ∈ (dispatchFrom e i ls).1 := by
  intro ls
  induction ls with
  | nil => intro i j h; simp [dispatchFrom] at h
  | cons l ls ih =>
    intro i j h
    simp only [dispatchFrom] at h ⊢
    by_cases hm : matchesPfx l e
    · simp only [hm, if_pos] at h ⊢
      by_cases hr : l.raisesOn e
      · simp only [hr, if_pos] at h
        rcases List.mem_cons.mp h with rfl | h
        · exact List.mem_cons.mpr (Or.inl rfl)
        · exact List.mem_cons.mpr (Or.inr (ih (i + 1) j h))
      · simp only [hr] at h
        exact List.mem_cons.mpr (Or.inr (ih (i + 1) j (by simpa using h)))
    · simp only [hm] at h ⊢
      exact ih (i + 1) j (by simpa using h)

theorem emit_event_caught (ls : List (Listener α)) (info : ProxyInfo) (counter : Nat)
    (et : EventType) (args res : Option α) :
    ∀ j ∈ (emit_event ls info counter et args res).2.2,
      ∃ ev, (j, ev) ∈ (emit_event ls info counter et args res).2.1 := by
  intro j hj
  by_cases h : ls.length = 0
  · simp [emit_event, h] at hj
  · simp only [emit_event, h, if_neg, dispatch] at hj ⊢
    exact ⟨_, dispatchFrom_caught _ ls 0 j hj⟩

/- Projection form of MethodProxy.__call__ on a successful call (definitional,
   using structure eta for pairs). -/
theorem methodCall_ok_def (ls : List (Listener α)) (info : ProxyInfo) (n : Nat)
    (v p : α) :
    methodCall ls info n (.ok v) p =
      { built := (emit_event ls info (n + 1) .call (some p) none).1.toList
          ++ (emit_event ls info (n + 1) .result none (some v)).1.toList
        deliveries := (emit_event ls info (n + 1) .call (some p) none).2.1
          ++ (emit_event ls info (n + 1) .result none (some v)).2.1
        caught := (emit_event ls info (n + 1) .call (some p) none).2.2
          ++ (emit_event ls info (n + 1) .result none (some v)).2.2
        outcome := .ok v } := rfl

/- Projection form of MethodProxy.__call__ on a failing call: the except
   block's lookup of EventType.EXCEPTION fails, so no second event is emitted
   and AttributeError replaces the original exception. -/
theorem methodCall_raises_def (ls : List (Listener α)) (info : ProxyInfo) (n : Nat)
    (e : PyExc) (p : α) :
    methodCall ls info n (.raises e) p =
      { built := (emit_event ls info (n + 1) .call (some p) none).1.toList
        deliveries := (emit_event ls info (n + 1) .call (some p) none).2.1
        caught := (emit_event ls info (n + 1) .call (some p) none).2.2
        outcome := .error (.attributeError "EXCEPTION") } := rfl

/-- C1 (status: code_bug).  The claim states that when the wrapped
implementation raises, the proxy emits an EXCEPTION event and re-raises the
original failure unchanged.  The code cannot do this: the EventType enum
(src/xaibo/core/models/events.py lines 7-9) has no EXCEPTION member, so the
except block of MethodProxy.__call__ (exchange.py line 349) itself raises
AttributeError("EXCEPTION"), which replaces the original failure.  Evaluated
at a concrete failing call (one empty-prefix listener, wrapped method raising
ValueError("boom")): the caller observes AttributeError, not the original
exception, no event of an exception kind exists, and only the CALL event was
emitted. -/
theorem c1_failing_call_raises_attribute_error :
    (methodCall [quietListener] sampleInfo 0 (.raises sampleExc) "args").outcome
        = .error (.attributeError "EXCEPTION")
    ∧ (methodCall [quietListener] sampleInfo 0 (.raises sampleExc) "args").outcome
        ≠ .error sampleExc
    ∧ (methodCall [quietListener] sampleInfo 0 (.raises sampleExc) "args").built.map
        PEvent.event_type = [.call]
    ∧ EventType.member "EXCEPTION" = none := by
  refine ⟨rfl, ?_, rfl, rfl⟩
  show Except.error (PyExc.attributeError "EXCEPTION") ≠ Except.error sampleExc
  simp [sampleExc]

/-- C6 (status: code_bug).  With zero listeners no event object is ever
constructed, and a successful call returns exactly what the unwrapped
implementation returns; but the claimed transparency fails on the failing
path: instead of the original failure the caller observes
AttributeError("EXCEPTION") (missing enum member, see C1), so the raised
failure is NOT identical to calling the unwrapped implementation directly.
The first conjunct proves the success half in general; the remaining
conjuncts evaluate the failing half at a concrete input. -/
theorem c6_zero_listeners :
    (∀ (α : Type) (info : ProxyInfo) (n : Nat) (v p : α),
        methodCall [] info n (.ok v) p
          = { built := [], deliveries := [], caught := [], outcome := .ok v })
    ∧ (methodCall ([] : List (Listener String)) sampleInfo 0 (.raises sampleExc)
          "args").built = []
    ∧ (methodCall ([] : List (Listener String)) sampleInfo 0 (.raises sampleExc)
          "args").outcome = .error (.attributeError "EXCEPTION")
    ∧ (methodCall ([] : List (Listener String)) sampleInfo 0 (.raises sampleExc)
          "args").outcome ≠ directCall (.raises sampleExc) := by
  refine ⟨fun α info n v p => rfl, rfl, rfl, ?_⟩
  show Except.error (PyExc.attributeError "EXCEPTION") ≠ Except.error sampleExc
  simp [sampleExc]

/-- C7 (status: confirmed).  For one empty-prefix listener (arbitrary agent
filter and handler behavior), a successful instrumented call constructs
exactly two events — first CALL, then RESULT — delivers both to that listener
in that order, both carry the same correlation id (built from the same
incremented per-proxy counter), and the call returns the wrapped method's
value unchanged. -/
theorem c7_call_then_result (α : Type) (info : ProxyInfo) (n : Nat)
    (af : Option String) (hr : PEvent α → Bool) (v p : α) :
    let t := methodCall [⟨"", af, hr⟩] info n (.ok v) p
    t.built.map PEvent.event_type = [.call, .result]
    ∧ t.deliveries.map Prod.fst = [0, 0]
    ∧ t.deliveries.map Prod.snd = t.built
    ∧ t.built.map PEvent.call_id = [mkCallId info (n + 1), mkCallId info (n + 1)]
    ∧ t.built.map PEvent.event_name
        = [mkEventName info .call, mkEventName info .result]
    ∧ t.outcome = .ok v := by
  exact ⟨rfl, rfl, rfl, rfl, rfl, rfl⟩

/-- C2 (status: confirmed).  A listener handler that raises while processing
an event is caught (bare except around handler(event), exchange.py lines
320-324): the trace of a call with arbitrary (possibly raising) handlers has
the same outcome, the same deliveries and the same constructed events as the
same call with never-raising handlers, which in turn catches nothing; and
every caught index belongs to a listener that was actually invoked.  So a
raising listener affects neither the in-flight call nor the delivery of the
event to the remaining listeners. -/
theorem c2_listener_isolation (α : Type) (ls : List (Listener α))
    (info : ProxyInfo) (n : Nat) (beh : MethodBehavior α) (p : α) :
    (methodCall (ls.map silence) info n beh p).outcome
        = (methodCall ls info n beh p).outcome
    ∧ (methodCall (ls.map silence) info n beh p).deliveries
        = (methodCall ls info n beh p).deliveries
    ∧ (methodCall (ls.map silence) info n beh p).built
        = (methodCall ls info n beh p).built
    ∧ (methodCall (ls.map silence) info n beh p).caught = []
    ∧ ∀ j ∈ (methodCall ls info n beh p).caught,
        ∃ ev, (j, ev) ∈ (methodCall ls info n beh p).deliveries := by
  cases beh with
  | ok v =>
    simp only [methodCall_ok_def, emit_event_silence]
    refine ⟨trivial, trivial, trivial, by simp, ?_⟩
    intro j hj
    rcases List.mem_append.mp hj with hj | hj
    · obtain ⟨ev, hev⟩ := emit_event_caught ls info (n + 1) .call (some p) none j hj
      exact ⟨ev, List.mem_append.mpr (Or.inl hev)⟩
    · obtain ⟨ev, hev⟩ := emit_event_caught ls info (n + 1) .result none (some v) j hj
      exact ⟨ev, List.mem_append.mpr (Or.inr hev)⟩
  | raises e =>
    simp only [methodCall_raises_def, emit_event_silence]
    refine ⟨trivial, trivial, trivial, trivial, ?_⟩
    intro j hj
    exact emit_event_caught ls info (n + 1) .call (some p) none j hj

/-- C8 (status: confirmed; the agent-id filter is spec-modelled, see
listeners_for_agent).  A listener's handler is invoked on an emitted event
exactly when its registered name-prefix is empty or a string prefix of the
event's fully-qualified name (the dispatch condition of _emit_event), and a
registered listener takes part in an activation's dispatch exactly when its
agent-id filter is absent or names that activation's agent. -/
theorem c8_dispatch_iff :
    (∀ (α : Type) (ls : List (Listener α)) (e : PEvent α) (i : Nat)
        (hi : i < ls.length),
        ((i, e) ∈ (dispatch ls e).1 ↔ matchesPfx (ls.get ⟨i, hi⟩) e = true))
    ∧ ∀ (α : Type) (regs : List (Listener α)) (aid : String) (r : Listener α),
        r ∈ listeners_for_agent regs aid
          ↔ r ∈ regs ∧ (r.agentFilter = none ∨ r.agentFilter = some aid) := by
  constructor
  · intro α ls e i hi
    rw [dispatch, dispatchFrom_mem]
    constructor
    · rintro ⟨-, k, hk, hik, hmk⟩
      have hki : k = i := by omega
      subst hki
      exact hmk
    · intro hm
      exact ⟨rfl, i, hi, by omega, hm⟩
  · intro α regs aid r
    simp only [listeners_for_agent, List.mem_filter]
    rcases haf : r.agentFilter with _ | a
    · simp [haf]
    · simp only [haf]
      constructor
      · rintro ⟨hr, hf⟩
        exact ⟨hr, Or.inr (congrArg some (by simpa using hf))⟩
      · rintro ⟨hr, hf | hf⟩
        · exact absurd hf (by simp)
        · refine ⟨hr, ?_⟩
          simpa using Option.some.inj hf

/-- C8 witness: the prefix listener "pkg.Mod.op" receives the event named
"pkg.Mod.op.call", never the event named "pkg.Other.op2.call", and takes part
in dispatch for agent "agent-1" (no filter). -/
theorem c8_witness :
    (0, mkSampleEvent "pkg.Mod.op.call")
        ∈ (dispatch [opListener] (mkSampleEvent "pkg.Mod.op.call")).1
    ∧ (0, mkSampleEvent "pkg.Other.op2.call")
        ∉ (dispatch [opListener] (mkSampleEvent "pkg.Other.op2.call")).1
    ∧ opListener ∈ listeners_for_agent [opListener] "agent-1" := by
  refine ⟨?_, ?_, ?_⟩
  · exact (c8_dispatch_iff.1 String [opListener] _ 0 (by decide)).mpr (by decide)
  · intro hmem
    exact absurd ((c8_dispatch_iff.1 String [opListener] _ 0 (by decide)).mp hmem)
      (by decide)
  · exact (c8_dispatch_iff.2 String [opListener] "agent-1" opListener).mpr
      ⟨List.mem_singleton.mpr rfl, Or.inl rfl⟩

/-- C10 (status: confirmed).  Each agent-level message operation
(handle_text / handle_image / handle_audio / handle_video): when the entry
module has the corresponding handler method, the operation invokes it,
discards its return value (the result below does not depend on entry.invoke
at the handler name) and returns get_response() of the module stored under
"__response__"; when the entry module lacks the handler, the operation
raises AttributeError with the protocol-specific message before invoking any
module method (the invocation list is empty). -/
theorem c10_message_ops (α β : Type) (a : AgentD α β) (entry resp : ModObj α β)
    (he : List.lookup "__entry__" a.modules = some entry)
    (hresp : List.lookup "__response__" a.modules = some resp) (payload : α) :
    ∀ op ∈ [(AgentD.handle_text (α := α) (β := β), "handle_text",
              "Entry module does not implement TextMessageHandlerProtocol"),
            (AgentD.handle_image, "handle_image",
              "Entry module does not implement ImageMessageHandlerProtocol"),
            (AgentD.handle_audio, "handle_audio",
              "Entry module does not implement AudioMessageHandlerProtocol"),
            (AgentD.handle_video, "handle_video",
              "Entry module does not implement VideoMessageHandlerProtocol")],
      (op.2.1 ∈ entry.methodNames →
        op.1 a payload
          = ([("__entry__", op.2.1), ("__response__", "get_response")],
             .ok (resp.invoke "get_response" none)))
      ∧ (op.2.1 ∉ entry.methodNames →
        op.1 a payload = ([], .error (.attributeError op.2.2))) := by
  intro op hop
  simp only [List.mem_cons, List.not_mem_nil, or_false] at hop
  rcases hop with rfl | rfl | rfl | rfl <;>
    exact ⟨fun hmem => by
        simp [AgentD.handle_text, AgentD.handle_image, AgentD.handle_audio,
          AgentD.handle_video, AgentD.handle_message, he, hresp, hmem],
      fun hmem => by
        simp [AgentD.handle_text, AgentD.handle_image, AgentD.handle_audio,
          AgentD.handle_video, AgentD.handle_message, he, hresp, hmem]⟩

/-- C10 witness: on the sample agent (entry handles only text), handle_text
returns the response module's get_response value with both invocations
logged, and handle_image raises AttributeError with nothing invoked. -/
theorem c10_witness :
    sampleAgent.handle_text "hi"
      = ([("__entry__", "handle_text"), ("__response__", "get_response")],
         .ok "the response")
    ∧ sampleAgent.handle_image "img"
      = ([], .error (.attributeError
          "Entry module does not implement ImageMessageHandlerProtocol")) := by
  constructor
  · exact ((c10_message_ops String String sampleAgent sampleEntry sampleResp
      rfl rfl "hi"
      (AgentD.handle_text, "handle_text",
        "Entry module does not implement TextMessageHandlerProtocol")
      (by simp)).1 (by simp [sampleEntry]))
  · exact ((c10_message_ops String String sampleAgent sampleEntry sampleResp
      rfl rfl "img"
      (AgentD.handle_image, "handle_image",
        "Entry module does not implement ImageMessageHandlerProtocol")
      (by simp)).2 (by simp [sampleEntry]))

/- Each stage of populate_implicits leaves the module-id list intact except
   for the initial response-module stage. -/

theorem introspectProvides_id (env : Env) (m : ModuleConfig) (acc : ProvMap) :
    (introspectProvides env m acc).1.id = m.id := by
  rcases h : importClass env m.module with _ | cls
  · simp [introspectProvides, h]
  · rcases h2 : cls.providesFn with _ | protos <;>
      simp [introspectProvides, h, h2]

theorem get_protocol_providers_ids (env : Env) :
    ∀ (ms : List ModuleConfig) (acc : ProvMap),
      (get_protocol_providers env ms acc).1.map (·.id) = ms.map (·.id) := by
  intro ms
  induction ms with
  | nil => intro acc; rfl
  | cons m ms ih =>
    intro acc
    simp only [get_protocol_providers, List.map_cons]
    rw [introspectProvides_id, ih]

theorem updateUses_id (reqs : List (String × List (String × String)))
    (m : ModuleConfig) : (updateUses reqs m).id = m.id := by
  unfold updateUses
  cases List.lookup m.id reqs with
  | none => rfl
  | some rs => rfl

theorem add_implicit_protocol_exchanges_ids (env : Env) (c c' : AgentConfig)
    (h : c.add_implicit_protocol_exchanges env = .ok c') :
    c'.moduleIds = c.moduleIds := by
  simp only [AgentConfig.add_implicit_protocol_exchanges, bind, Except.bind] at h
  rcases hl : implicitExchangesLoop (get_protocol_providers env c.modules []).2
      ((get_protocol_providers env c.modules []).1.map
        (updateUses (get_module_requirements env
          (get_protocol_providers env c.modules []).1)))
      c.exchangeList with e | ex <;> rw [hl] at h
  · cases h
  · cases h
    show (_ : AgentConfig).moduleIds = c.moduleIds
    simp only [AgentConfig.moduleIds, List.map_map]
    have h1 : ∀ m : ModuleConfig,
        ((fun x => x.id) ∘ updateUses (get_module_requirements env
          (get_protocol_providers env c.modules []).1)) m = m.id := by
      intro m; exact updateUses_id _ m
    rw [List.map_congr_left fun m _ => h1 m]
    exact get_protocol_providers_ids env c.modules []

theorem add_implicit_entry_handlers_ids (c c' : AgentConfig)
    (h : c.add_implicit_entry_handlers = .ok c') :
    c'.moduleIds = c.moduleIds := by
  unfold AgentConfig.add_implicit_entry_handlers at h
  rcases hl : entryHandlersLoop c message_handler_protocols c.exchangeList with e | ex
  · rw [hl] at h; cases h
  · rw [hl] at h
    cases h
    rfl

theorem add_implicit_response_module_ids (c : AgentConfig) :
    c.add_implicit_response_module.moduleIds
      = (if "__response__" ∈ c.moduleIds then c.moduleIds
         else c.moduleIds ++ ["__response__"]) := by
  unfold AgentConfig.add_implicit_response_module
  by_cases h : c.modules.any (fun m => m.id == "__response__")
  · rw [if_pos h, if_pos]
    obtain ⟨m, hm, hid⟩ := List.any_eq_true.mp h
    exact List.mem_map.mpr ⟨m, hm, eq_of_beq hid⟩
  · rw [if_neg h, if_neg]
    · simp [AgentConfig.moduleIds, response_module_config]
    · intro hmem
      obtain ⟨m, hm, hid⟩ := List.mem_map.mp hmem
      exact h (List.any_eq_true.mpr ⟨m, hm, beq_iff_eq.mpr hid⟩)

/-- C9 counterexample: a config declaring two modules with id "__response__"
is accepted by populate_implicits (no module is appended, both declared ones
are kept), so after parsing the module list does not contain exactly one
module with the reserved id. -/
theorem c9_duplicate_response_preserved :
    ∃ c, AgentConfig.populate_implicits [] dupResponseCfg = .ok c
      ∧ c.moduleIds.count "__response__" = 2
      ∧ c.moduleIds.count "__response__" ≠ 1 := by
  exact ⟨_, rfl, rfl, by decide⟩

/-- C9 (status: corrected; amended claim).  For every agent config accepted
by populate_implicits, a response-collector module with id "__response__" is
appended exactly when the input declared none (declared ones are kept in
place), so the output id list is the input id list, extended by
"__response__" when absent; hence the output has exactly one such id whenever
the input declared at most one — but not in general (see the
counterexample). -/
theorem c9_amended_response_module (env : Env) (c c' : AgentConfig)
    (h : AgentConfig.populate_implicits env c = .ok c') :
    c'.moduleIds
      = (if "__response__" ∈ c.moduleIds then c.moduleIds
         else c.moduleIds ++ ["__response__"])
    ∧ (c.moduleIds.count "__response__" ≤ 1 →
        c'.moduleIds.count "__response__" = 1) := by
  simp only [AgentConfig.populate_implicits, bind, Except.bind] at h
  rcases h3 : (c.add_implicit_response_module.initialize_exchange_list).add_implicit_protocol_exchanges env
    with e | c3 <;> rw [h3] at h
  · cases h
  ·
    have hids3 : c3.moduleIds = c.add_implicit_response_module.moduleIds :=
      add_implicit_protocol_exchanges_ids env _ c3 h3
    have hids4 : c'.moduleIds = c3.moduleIds :=
      add_implicit_entry_handlers_ids c3 c' h
    have hmain : c'.moduleIds
        = (if "__response__" ∈ c.moduleIds then c.moduleIds
           else c.moduleIds ++ ["__response__"]) := by
      rw [hids4, hids3, add_implicit_response_module_ids]
    refine ⟨hmain, ?_⟩
    intro hle
    rw [hmain]
    by_cases hmem : "__response__" ∈ c.moduleIds
    · rw [if_pos hmem]
      have hpos : 0 < c.moduleIds.count "__response__" :=
        List.count_pos_iff.mpr hmem
      omega
    · rw [if_neg hmem]
      rw [List.count_append]
      rw [List.count_eq_zero.mpr hmem]
      rfl

/-- C9 witness: on the empty config the response module is appended, giving
exactly one module with the reserved id. -/
theorem c9_amended_witness :
    ∃ c', AgentConfig.populate_implicits [] emptyCfg = .ok c'
      ∧ c'.moduleIds
          = (if "__response__" ∈ emptyCfg.moduleIds then emptyCfg.moduleIds
             else emptyCfg.moduleIds ++ ["__response__"])
      ∧ ((emptyCfg.moduleIds.count "__response__" ≤ 1) →
          c'.moduleIds.count "__response__" = 1) := by
  refine ⟨_, rfl, ?_, ?_⟩
  · exact (c9_amended_response_module [] emptyCfg _ rfl).1
  · exact (c9_amended_response_module [] emptyCfg _ rfl).2

/- ### Provider-map arithmetic for the ambiguity analysis (C5). -/

theorem ProvMap.get_cons (k' : String) (vs : List String) (rest : ProvMap)
    (X : String) :
    ProvMap.get ((k', vs) :: rest) X = if X = k' then vs else ProvMap.get rest X := by
  by_cases h : X = k'
  · simp [ProvMap.get, List.lookup, h]
  · have hb : (X == k') = false := beq_eq_false_iff_ne.mpr h
    simp [ProvMap.get, List.lookup, hb, h]

theorem ProvMap.get_add (k v X : String) :
    ∀ m : ProvMap, (ProvMap.add m k v).get X
      = if X = k then m.get X ++ [v] else m.get X := by
  intro m
  induction m with
  | nil =>
    by_cases h : X = k
    · subst h
      simp [ProvMap.add, ProvMap.get_cons, ProvMap.get, List.lookup]
    · have hb : (X == k) = false := beq_eq_false_iff_ne.mpr h
      simp [ProvMap.add, ProvMap.get_cons, h, ProvMap.get, List.lookup, hb]
  | cons kv rest ih =>
    obtain ⟨k', vs⟩ := kv
    by_cases h1 : k' = k
    · subst h1
      have ha : ProvMap.add ((k', vs) :: rest) k' v = (k', vs ++ [v]) :: rest := by
        simp [ProvMap.add]
      rw [ha, ProvMap.get_cons, ProvMap.get_cons]
      by_cases h2 : X = k' <;> simp [h2]
    · have ha : ProvMap.add ((k', vs) :: rest) k v
          = (k', vs) :: ProvMap.add rest k v := by
        simp [ProvMap.add, h1]
      rw [ha, ProvMap.get_cons, ih, ProvMap.get_cons]
      by_cases h2 : X = k'
      · have h3 : ¬(X = k) := fun he => h1 (h2.symm.trans he)
        simp [h2, h3, h1]
      · simp [h2]

theorem ProvMap.get_add_self (m : ProvMap) (k v : String) :
    (ProvMap.add m k v).get k = m.get k ++ [v] := by
  rw [ProvMap.get_add]; simp

theorem ProvMap.get_add_ne (m : ProvMap) (k v X : String) (h : k ≠ X) :
    (ProvMap.add m k v).get X = m.get X := by
  rw [ProvMap.get_add]
  have hX : ¬(X = k) := fun he => h he.symm
  simp [hX]

theorem ProvMap.get_add_len (m : ProvMap) (k v X : String) :
    (m.get X).length ≤ ((ProvMap.add m k v).get X).length := by
  rw [ProvMap.get_add]
  by_cases h : X = k <;> simp [h]

/- Recording the declared provides of one module grows the entry at X by at
   least one when the module declares X. -/
theorem declared_fold_len (mid X : String) :
    ∀ (ps : List String) (acc : ProvMap),
      (acc.get X).length + (if X ∈ ps then 1 else 0)
        ≤ ((ps.foldl (fun a p => ProvMap.add a p mid) acc).get X).length := by
  intro ps
  induction ps with
  | nil => intro acc; simp
  | cons p ps ih =>
    intro acc
    simp only [List.foldl_cons]
    by_cases hpX : X = p
    · subst hpX
      have hmem : X ∈ X :: ps := List.mem_cons_self X ps
      rw [if_pos hmem]
      have hstep : ((ProvMap.add acc X mid).get X).length
          = (acc.get X).length + 1 := by
        rw [ProvMap.get_add_self]; simp
      have h2 := ih (ProvMap.add acc X mid)
      by_cases hm : X ∈ ps
      · rw [if_pos hm] at h2; omega
      · rw [if_neg hm] at h2; omega
    · have hstep : ((ProvMap.add acc p mid).get X).length = (acc.get X).length := by
        rw [ProvMap.get_add, if_neg hpX]
      have h2 := ih (ProvMap.add acc p mid)
      have hiff : (X ∈ p :: ps) ↔ (X ∈ ps) := by
        constructor
        · intro h; rcases List.mem_cons.mp h with h | h
          · exact absurd h hpX
          · exact h
        · exact fun h => List.mem_cons.mpr (Or.inr h)
      by_cases hm : X ∈ ps
      · rw [if_pos (hiff.mpr hm)]
        rw [if_pos hm] at h2
        omega
      · rw [if_neg (fun h => hm (hiff.mp h))]
        rw [if_neg hm] at h2
        omega

/- The introspection fold only ever appends to the map. -/
theorem introspect_fold_len (mid X : String) :
    ∀ (protos : List String) (st : Option (List String) × ProvMap),
      (st.2.get X).length
        ≤ ((protos.foldl
            (fun (st : Option (List String) × ProvMap) (p : String) =>
              if p ∈ st.1.getD [] then st
              else (some (st.1.getD [] ++ [p]), ProvMap.add st.2 p mid))
            st).2.get X).length := by
  intro protos
  induction protos with
  | nil => intro st; simp
  | cons p ps ih =>
    intro st
    simp only [List.foldl_cons]
    by_cases h : p ∈ st.1.getD []
    · rw [if_pos h]; exact ih st
    · rw [if_neg h]
      have h2 := ih (some (st.1.getD [] ++ [p]), ProvMap.add st.2 p mid)
      have h3 := ProvMap.get_add_len st.2 p mid X
      exact le_trans h3 h2

theorem introspectProvides_len (env : Env) (m : ModuleConfig) (acc : ProvMap)
    (X : String) :
    (acc.get X).length ≤ ((introspectProvides env m acc).2.get X).length := by
  rcases h : importClass env m.module with _ | cls
  · simp [introspectProvides, h]
  · rcases h2 : cls.providesFn with _ | protos
    · simp [introspectProvides, h, h2]
    · simp only [introspectProvides, h, h2]
      exact introspect_fold_len m.id X protos (m.provides, acc)

/- The provider map records at least one provider per module declaring X. -/
theorem get_protocol_providers_len (env : Env) (X : String) :
    ∀ (ms : List ModuleConfig) (acc : ProvMap),
      (acc.get X).length + ms.countP (fun m => decide (X ∈ m.provides.getD []))
        ≤ ((get_protocol_providers env ms acc).2.get X).length := by
  intro ms
  induction ms with
  | nil => intro acc; simp [get_protocol_providers]
  | cons m ms ih =>
    intro acc
    simp only [get_protocol_providers]
    have h1 := declared_fold_len m.id X (m.provides.getD []) acc
    have h2 := introspectProvides_len env m
      ((m.provides.getD []).foldl (fun a p => ProvMap.add a p m.id) acc) X
    have h3 := ih (introspectProvides env m
      ((m.provides.getD []).foldl (fun a p => ProvMap.add a p m.id) acc)).2
    by_cases hm : X ∈ m.provides.getD []
    · rw [if_pos hm] at h1
      have hc : List.countP (fun m => decide (X ∈ m.provides.getD [])) (m :: ms)
          = List.countP (fun m => decide (X ∈ m.provides.getD [])) ms + 1 := by
        simp [List.countP_cons, hm]
      rw [hc]
      omega
    · rw [if_neg hm] at h1
      have hc : List.countP (fun m => decide (X ∈ m.provides.getD [])) (m :: ms)
          = List.countP (fun m => decide (X ∈ m.provides.getD [])) ms := by
        simp [List.countP_cons, hm]
      rw [hc]
      omega

/- ### Behavior of the implicit-exchange loops under an ambiguous protocol. -/

theorem any_binding_false (ex : List ExchangeConfig) (mid p : String)
    (h : ∀ e ∈ ex, ¬(e.module = mid ∧ e.protocol = p)) :
    ex.any (fun e => e.module == mid && e.protocol == p) = false := by
  rw [List.any_eq_false]
  intro e he hb
  obtain ⟨h1, h2⟩ := Bool.and_eq_true_iff.mp hb
  exact h e he ⟨eq_of_beq h1, eq_of_beq h2⟩

/- The only error the protocol loop ever produces is the ambiguous-provider
   error. -/
theorem implicitExchangesFor_error_shape (provs : ProvMap) (mid : String) :
    ∀ (ps : List String) (ex : List ExchangeConfig) (e : CfgError),
      implicitExchangesFor provs mid ps ex = .error e →
      ∃ p m cs, e = .multipleProviders p m cs := by
  intro ps
  induction ps with
  | nil => intro ex e h; cases h
  | cons p ps ih =>
    intro ex e h
    simp only [implicitExchangesFor] at h
    by_cases hc : ex.any (fun e => e.module == mid && e.protocol == p) = true
    · rw [if_pos hc] at h
      exact ih ex e h
    · rw [if_neg hc] at h
      rcases hg : provs.get p with _ | ⟨a, _ | ⟨b, t⟩⟩ <;> rw [hg] at h
      · exact ih ex e h
      · exact ih _ e h
      · cases h
        exact ⟨p, mid, a :: b :: t, rfl⟩

theorem implicitExchangesLoop_error_shape (provs : ProvMap) :
    ∀ (ms : List ModuleConfig) (ex : List ExchangeConfig) (e : CfgError),
      implicitExchangesLoop provs ms ex = .error e →
      ∃ p m cs, e = .multipleProviders p m cs := by
  intro ms
  induction ms with
  | nil => intro ex e h; cases h
  | cons m ms ih =>
    intro ex e h
    simp only [implicitExchangesLoop] at h
    rcases hu : m.uses with _ | ⟨⟩ | ⟨u, us⟩
    · rw [hu] at h; exact ih ex e h
    · rw [hu] at h; exact ih ex e h
    · rw [hu] at h
      simp only [bind, Except.bind] at h
      rcases hin : implicitExchangesFor provs m.id (u :: us) ex with err | ex2 <;>
        rw [hin] at h
      · cases h
        exact implicitExchangesFor_error_shape provs m.id (u :: us) ex e hin
      · exact ih ex2 e h

/- Under an ambiguous protocol X (at least two providers) the inner loop can
   only append exchange entries for other protocols, so a module that has no
   binding for X keeps having none. -/
theorem implicitExchangesFor_preserves (provs : ProvMap) (mid X q : String)
    (hlen : 2 ≤ (provs.get X).length) :
    ∀ (ps : List String) (ex ex' : List ExchangeConfig),
      implicitExchangesFor provs mid ps ex = .ok ex' →
      (∀ e ∈ ex, ¬(e.module = q ∧ e.protocol = X)) →
      ∀ e ∈ ex', ¬(e.module = q ∧ e.protocol = X) := by
  intro ps
  induction ps with
  | nil =>
    intro ex ex' hok hnb
    cases hok
    exact hnb
  | cons p ps ih =>
    intro ex ex' hok hnb
    simp only [implicitExchangesFor] at hok
    by_cases hc : ex.any (fun e => e.module == mid && e.protocol == p) = true
    · rw [if_pos hc] at hok
      exact ih ex ex' hok hnb
    · rw [if_neg hc] at hok
      rcases hg : provs.get p with _ | ⟨a, _ | ⟨b, t⟩⟩ <;> rw [hg] at hok
      · exact ih ex ex' hok hnb
      · have hpX : p ≠ X := by
          intro hpe
          rw [hpe] at hg
          rw [hg] at hlen
          simp at hlen
        refine ih _ ex' hok ?_
        intro e he
        rcases List.mem_append.mp he with he | he
        · exact hnb e he
        · have : e = ⟨mid, p, a⟩ := List.mem_singleton.mp he
          subst this
          rintro ⟨-, h2⟩
          exact hpX h2
      · cases hok

/- Under an ambiguous protocol X, a module that uses X and has no binding for
   it makes the inner loop fail. -/
theorem implicitExchangesFor_fails (provs : ProvMap) (mid X : String)
    (hlen : 2 ≤ (provs.get X).length) :
    ∀ (ps : List String) (ex : List ExchangeConfig),
      X ∈ ps →
      (∀ e ∈ ex, ¬(e.module = mid ∧ e.protocol = X)) →
      ∃ err, implicitExchangesFor provs mid ps ex = .error err := by
  intro ps
  induction ps with
  | nil => intro ex hX; cases hX
  | cons p ps ih =>
    intro ex hX hnb
    simp only [implicitExchangesFor]
    by_cases hc : ex.any (fun e => e.module == mid && e.protocol == p) = true
    · by_cases hpX : p = X
      · subst hpX
        rw [any_binding_false ex mid p hnb] at hc
        cases hc
      · have hXps : X ∈ ps := by
          rcases List.mem_cons.mp hX with h | h
          · exact absurd h.symm hpX
          · exact h
        obtain ⟨err, herr⟩ := ih ex hXps hnb
        exact ⟨err, by rw [if_pos hc]; exact herr⟩
    · rcases hg : provs.get p with _ | ⟨a, _ | ⟨b, t⟩⟩
      · have hpX : p ≠ X := by
          intro hpe
          rw [hpe] at hg
          rw [hg] at hlen
          simp at hlen
        have hXps : X ∈ ps := by
          rcases List.mem_cons.mp hX with h | h
          · exact absurd h.symm hpX
          · exact h
        obtain ⟨err, herr⟩ := ih ex hXps hnb
        exact ⟨err, by rw [if_neg hc]; exact herr⟩
      · have hpX : p ≠ X := by
          intro hpe
          rw [hpe] at hg
          rw [hg] at hlen
          simp at hlen
        have hXps : X ∈ ps := by
          rcases List.mem_cons.mp hX with h | h
          · exact absurd h.symm hpX
          · exact h
        have hnb2 : ∀ e ∈ ex ++ [⟨mid, p, a⟩], ¬(e.module = mid ∧ e.protocol = X) := by
          intro e he
          rcases List.mem_append.mp he with he | he
          · exact hnb e he
          · have : e = ⟨mid, p, a⟩ := List.mem_singleton.mp he
            subst this
            rintro ⟨-, h2⟩
            exact hpX h2
        obtain ⟨err, herr⟩ := ih _ hXps hnb2
        exact ⟨err, by rw [if_neg hc]; exact herr⟩
      · exact ⟨.multipleProviders p mid (a :: b :: t), by rw [if_neg hc]⟩

/- Under an ambiguous protocol X, the module loop fails as soon as some
   module in it uses X without a binding. -/
theorem implicitExchangesLoop_fails (provs : ProvMap) (X : String)
    (hlen : 2 ≤ (provs.get X).length) :
    ∀ (ms : List ModuleConfig) (ex : List ExchangeConfig) (M2 : ModuleConfig),
      M2 ∈ ms → X ∈ M2.uses.getD [] →
      (∀ e ∈ ex, ¬(e.module = M2.id ∧ e.protocol = X)) →
      ∃ err, implicitExchangesLoop provs ms ex = .error err := by
  intro ms
  induction ms with
  | nil => intro ex M2 hM; cases hM
  | cons m ms ih =>
    intro ex M2 hM hX hnb
    rcases hu : m.uses with _ | ⟨⟩ | ⟨u, us⟩
    · have hM2 : M2 ∈ ms := by
        rcases List.mem_cons.mp hM with h | h
        · subst h; rw [hu] at hX; cases hX
        · exact h
      obtain ⟨err, herr⟩ := ih ex M2 hM2 hX hnb
      exact ⟨err, by simp only [implicitExchangesLoop, hu]; exact herr⟩
    · have hM2 : M2 ∈ ms := by
        rcases List.mem_cons.mp hM with h | h
        · subst h; rw [hu] at hX; cases hX
        · exact h
      obtain ⟨err, herr⟩ := ih ex M2 hM2 hX hnb
      exact ⟨err, by simp only [implicitExchangesLoop, hu]; exact herr⟩
    · rcases hin : implicitExchangesFor provs m.id (u :: us) ex with err | ex2
      · exact ⟨err, by
          simp only [implicitExchangesLoop, hu, bind, Except.bind, hin]⟩
      · have hMm : M2 ≠ m := by
          intro he
          subst he
          obtain ⟨err, herr⟩ := implicitExchangesFor_fails provs M2.id X hlen
            (u :: us) ex (by rw [hu] at hX; simpa using hX) hnb
          exact Except.noConfusion (herr.symm.trans hin)
        have hM2 : M2 ∈ ms := by
          rcases List.mem_cons.mp hM with h | h
          · exact absurd h hMm
          · exact h
        have hnb2 := implicitExchangesFor_preserves provs m.id X M2.id hlen
          (u :: us) ex ex2 hin hnb
        obtain ⟨err, herr⟩ := ih ex2 M2 hM2 hX hnb2
        exact ⟨err, by
          simp only [implicitExchangesLoop, hu, bind, Except.bind, hin]
          exact herr⟩

/- ### Stage composition facts for populate_implicits. -/

theorem introspectProvides_uses (env : Env) (m : ModuleConfig) (acc : ProvMap) :
    (introspectProvides env m acc).1.uses = m.uses := by
  rcases h : importClass env m.module with _ | cls
  · simp [introspectProvides, h]
  · rcases h2 : cls.providesFn with _ | protos <;>
      simp [introspectProvides, h, h2]

theorem get_protocol_providers_mem (env : Env) :
    ∀ (ms : List ModuleConfig) (acc : ProvMap) (m : ModuleConfig), m ∈ ms →
      ∃ m1 ∈ (get_protocol_providers env ms acc).1,
        m1.id = m.id ∧ m1.uses = m.uses := by
  intro ms
  induction ms with
  | nil => intro acc m h; cases h
  | cons m0 ms ih =>
    intro acc m h
    simp only [get_protocol_providers]
    rcases List.mem_cons.mp h with rfl | h
    · exact ⟨_, List.mem_cons_self _ _,
        introspectProvides_id env m _, introspectProvides_uses env m _⟩
    · obtain ⟨m1, hm1, hid, hus⟩ := ih _ m h
      exact ⟨m1, List.mem_cons.mpr (Or.inr hm1), hid, hus⟩

theorem mem_foldl_keep_append (x : String) :
    ∀ (rs : List (String × String)) (init : List String), x ∈ init →
      x ∈ rs.foldl
        (fun (us : List String) pt => if pt.2 ∈ us then us else us ++ [pt.2])
        init := by
  intro rs
  induction rs with
  | nil => intro init h; simpa using h
  | cons r rs ih =>
    intro init h
    simp only [List.foldl_cons]
    by_cases hr : r.2 ∈ init
    · rw [if_pos hr]; exact ih init h
    · rw [if_neg hr]; exact ih _ (List.mem_append.mpr (Or.inl h))

theorem updateUses_mem (reqs : List (String × List (String × String)))
    (m : ModuleConfig) (x : String) (h : x ∈ m.uses.getD []) :
    x ∈ (updateUses reqs m).uses.getD [] := by
  unfold updateUses
  rcases hl : List.lookup m.id reqs with _ | rs
  · exact h
  · simpa using mem_foldl_keep_append x rs (m.uses.getD []) h

theorem add_implicit_response_module_exchangeList (c : AgentConfig) :
    (c.add_implicit_response_module).exchangeList = c.exchangeList := by
  unfold AgentConfig.add_implicit_response_module
  by_cases h : (c.modules.any fun m => m.id == "__response__") = true
  · rw [if_pos h]
  · rw [if_neg h]
    rfl

theorem add_implicit_response_module_modules_mem (c : AgentConfig)
    (m : ModuleConfig) (h : m ∈ c.modules) :
    m ∈ (c.add_implicit_response_module).modules := by
  unfold AgentConfig.add_implicit_response_module
  by_cases hc : (c.modules.any fun m => m.id == "__response__") = true
  · rw [if_pos hc]; exact h
  · rw [if_neg hc]; exact List.mem_append.mpr (Or.inl h)

theorem add_implicit_response_module_countP (c : AgentConfig)
    (f : ModuleConfig → Bool) :
    c.modules.countP f ≤ (c.add_implicit_response_module).modules.countP f := by
  unfold AgentConfig.add_implicit_response_module
  by_cases hc : (c.modules.any fun m => m.id == "__response__") = true
  · rw [if_pos hc]
  · rw [if_neg hc]
    simp only [List.countP_append]
    exact Nat.le_add_right _ _

theorem initialize_exchange_list_exchangeList (c : AgentConfig) :
    (c.initialize_exchange_list).exchangeList = c.exchangeList := by
  simp [AgentConfig.initialize_exchange_list, AgentConfig.exchangeList]

theorem ProvMap.get_nil (X : String) : ProvMap.get [] X = [] := rfl

/- With an empty import environment (no importable class), introspection is
   the identity and no constructor requirements are found. -/

theorem introspectProvides_nil_env (m : ModuleConfig) (acc : ProvMap) :
    introspectProvides [] m acc = (m, acc) := rfl

theorem get_protocol_providers_nil_fst :
    ∀ (ms : List ModuleConfig) (acc : ProvMap),
      (get_protocol_providers [] ms acc).1 = ms := by
  intro ms
  induction ms with
  | nil => intro acc; rfl
  | cons m ms ih =>
    intro acc
    simp only [get_protocol_providers, introspectProvides_nil_env]
    rw [ih]

theorem moduleRequirements_nil_env (m : ModuleConfig) :
    moduleRequirements [] m = [] := rfl

theorem get_module_requirements_nil_env :
    ∀ ms : List ModuleConfig, get_module_requirements [] ms = [] := by
  intro ms
  induction ms with
  | nil => rfl
  | cons m ms ih =>
    simp only [get_module_requirements, List.map_cons,
      moduleRequirements_nil_env] at ih ⊢
    rw [List.filter_cons_of_neg]
    · exact ih
    · simp

theorem updateUses_nil_reqs (m : ModuleConfig) : updateUses [] m = m := rfl

theorem map_updateUses_nil :
    ∀ ms : List ModuleConfig, ms.map (updateUses []) = ms := by
  intro ms
  induction ms with
  | nil => rfl
  | cons m ms ih => simp only [List.map_cons, updateUses_nil_reqs, ih]

/- Modules without a truthy uses list are skipped by the protocol loop. -/
theorem implicitExchangesLoop_skips (provs : ProvMap) :
    ∀ (pre tail : List ModuleConfig) (ex : List ExchangeConfig),
      (∀ m ∈ pre, m.uses.getD [] = []) →
      implicitExchangesLoop provs (pre ++ tail) ex
        = implicitExchangesLoop provs tail ex := by
  intro pre
  induction pre with
  | nil => intro tail ex h; rfl
  | cons m pre ih =>
    intro tail ex h
    have hm := h m (List.mem_cons_self m pre)
    rcases hu : m.uses with _ | l
    · simp only [List.cons_append, implicitExchangesLoop, hu]
      exact ih tail ex (fun m2 hm2 => h m2 (List.mem_cons.mpr (Or.inr hm2)))
    · have hl : l = [] := by rw [hu] at hm; simpa using hm
      subst hl
      simp only [List.cons_append, implicitExchangesLoop, hu]
      exact ih tail ex (fun m2 hm2 => h m2 (List.mem_cons.mpr (Or.inr hm2)))

/- A failing protocol loop makes populate_implicits fail with the same error
   (the entry-handler stage is never reached). -/
theorem populate_error_of_loop (env : Env) (c : AgentConfig) (err : CfgError)
    (h : implicitExchangesLoop
        (get_protocol_providers env (c.add_implicit_response_module).modules []).2
        ((get_protocol_providers env (c.add_implicit_response_module).modules []).1.map
          (updateUses (get_module_requirements env
            (get_protocol_providers env (c.add_implicit_response_module).modules []).1)))
        c.exchangeList = .error err) :
    AgentConfig.populate_implicits env c = .error err := by
  have hmods : ((c.add_implicit_response_module).initialize_exchange_list).modules
      = (c.add_implicit_response_module).modules := rfl
  have hex : ((c.add_implicit_response_module).initialize_exchange_list).exchangeList
      = c.exchangeList := by
    rw [initialize_exchange_list_exchangeList, add_implicit_response_module_exchangeList]
  have hstage3 : ((c.add_implicit_response_module).initialize_exchange_list).add_implicit_protocol_exchanges env
      = .error err := by
    simp only [AgentConfig.add_implicit_protocol_exchanges, bind, Except.bind,
      hmods, hex]
    rw [h]
  simp only [AgentConfig.populate_implicits, bind, Except.bind, hstage3]

/-- C5 (status: confirmed).  If capability X has two or more declared
providers and module M lists X as required with no explicit binding for
(M, X), then populate_implicits — run by from_yaml before any module is ever
constructed — fails, and the error is an ambiguous-provider error (first
conjunct, arbitrary import environment).  When moreover M is the first
module with a truthy uses list and X heads its list (and classes are not
introspectable), the error names exactly X, M and the candidate provider
list (second conjunct). -/
theorem c5_ambiguous_provider (env : Env) (c : AgentConfig) (M : ModuleConfig)
    (X : String)
    (hM : M ∈ c.modules)
    (hXreq : X ∈ M.uses.getD [])
    (hprov : 2 ≤ c.modules.countP (fun m => decide (X ∈ m.provides.getD [])))
    (hnb : ∀ e ∈ c.exchangeList, ¬(e.module = M.id ∧ e.protocol = X)) :
    (∃ err, AgentConfig.populate_implicits env c = .error err
        ∧ ∃ p mid cs, err = .multipleProviders p mid cs)
    ∧ (∀ (pre post : List ModuleConfig) (us : List String),
        env = [] →
        c.modules = pre ++ M :: post →
        (∀ m ∈ pre, m.uses.getD [] = []) →
        M.uses = some (X :: us) →
        AgentConfig.populate_implicits env c
          = .error (.multipleProviders X M.id (declared_provider_candidates c X))) := by
  have hlen : 2 ≤ ((get_protocol_providers env
      (c.add_implicit_response_module).modules []).2.get X).length := by
    have h1 := get_protocol_providers_len env X
      (c.add_implicit_response_module).modules []
    have h2 := add_implicit_response_module_countP c
      (fun m => decide (X ∈ m.provides.getD []))
    rw [ProvMap.get_nil] at h1
    simp only [List.length_nil] at h1
    omega
  constructor
  · obtain ⟨M1, hM1mem, hM1id, hM1uses⟩ :=
      get_protocol_providers_mem env (c.add_implicit_response_module).modules [] M
        (add_implicit_response_module_modules_mem c M hM)
    have hM2mem := List.mem_map_of_mem
      (updateUses (get_module_requirements env
        (get_protocol_providers env (c.add_implicit_response_module).modules []).1))
      hM1mem
    have hM2uses : X ∈ (updateUses (get_module_requirements env
        (get_protocol_providers env (c.add_implicit_response_module).modules []).1)
          M1).uses.getD [] :=
      updateUses_mem _ M1 X (by rw [hM1uses]; exact hXreq)
    have hM2nb : ∀ e ∈ c.exchangeList,
        ¬(e.module = (updateUses (get_module_requirements env
          (get_protocol_providers env (c.add_implicit_response_module).modules []).1)
            M1).id ∧ e.protocol = X) := by
      simp only [updateUses_id, hM1id]
      exact hnb
    obtain ⟨err, herr⟩ := implicitExchangesLoop_fails _ X hlen _ c.exchangeList _
      hM2mem hM2uses hM2nb
    exact ⟨err, populate_error_of_loop env c err herr,
      implicitExchangesLoop_error_shape _ _ _ _ herr⟩
  · intro pre post us henv hsplit hpre huses
    subst henv
    obtain ⟨post2, hc1⟩ : ∃ post2,
        (c.add_implicit_response_module).modules = pre ++ M :: post2 := by
      unfold AgentConfig.add_implicit_response_module
      by_cases hresp : (c.modules.any fun m => m.id == "__response__") = true
      · rw [if_pos hresp]; exact ⟨post, hsplit⟩
      · rw [if_neg hresp]
        refine ⟨post ++ [response_module_config], ?_⟩
        show c.modules ++ [response_module_config] = _
        rw [hsplit]
        simp
    have hcand : declared_provider_candidates c X
        = ProvMap.get (get_protocol_providers []
            (c.add_implicit_response_module).modules []).2 X := rfl
    have hinner : implicitExchangesFor
        (get_protocol_providers [] (c.add_implicit_response_module).modules []).2
        M.id (X :: us) c.exchangeList
        = .error (.multipleProviders X M.id (declared_provider_candidates c X)) := by
      rw [hcand]
      simp only [implicitExchangesFor]
      have hcond : ¬((c.exchangeList.any
          fun e => e.module == M.id && e.protocol == X) = true) := by
        rw [any_binding_false c.exchangeList M.id X hnb]
        simp
      rw [if_neg hcond]
      rcases hpx : ProvMap.get (get_protocol_providers []
          (c.add_implicit_response_module).modules []).2 X with _ | ⟨a, _ | ⟨b, t⟩⟩
      · rw [hpx] at hlen; simp at hlen
      · rw [hpx] at hlen; simp at hlen
      · rfl
    have hhead : implicitExchangesLoop
        (get_protocol_providers [] (c.add_implicit_response_module).modules []).2
        (M :: post2) c.exchangeList
        = .error (.multipleProviders X M.id (declared_provider_candidates c X)) := by
      simp only [implicitExchangesLoop, huses, bind, Except.bind, hinner]
    have hms2 : ((get_protocol_providers []
          (c.add_implicit_response_module).modules []).1.map
        (updateUses (get_module_requirements []
          (get_protocol_providers []
            (c.add_implicit_response_module).modules []).1)))
        = (c.add_implicit_response_module).modules := by
      rw [get_protocol_providers_nil_fst, get_module_requirements_nil_env,
        map_updateUses_nil]
    have hstep := congrArg
      (fun ms => implicitExchangesLoop
        (get_protocol_providers [] (c.add_implicit_response_module).modules []).2
        ms c.exchangeList) hc1
    simp only [] at hstep
    refine populate_error_of_loop [] c _ ?_
    rw [hms2]
    rw [hstep]
    rw [implicitExchangesLoop_skips _ pre (M :: post2) c.exchangeList hpre]
    exact hhead

/-- C5 witness: on the concrete two-provider config, resolution fails with
the ambiguous-provider error naming the protocol, the requiring module "m",
and the candidate providers ["p1", "p2"]. -/
theorem c5_witness :
    AgentConfig.populate_implicits [] c5cfg
      = .error (.multipleProviders "ToolProviderProtocol" "m"
          (declared_provider_candidates c5cfg "ToolProviderProtocol"))
    ∧ declared_provider_candidates c5cfg "ToolProviderProtocol" = ["p1", "p2"] := by
  constructor
  · exact (c5_ambiguous_provider [] c5cfg
      ⟨"p.M", "m", none, some ["ToolProviderProtocol"]⟩ "ToolProviderProtocol"
      (by decide) (by decide) (by decide) (by decide)).2
      [ ⟨"p.P1", "p1", some ["ToolProviderProtocol"], none⟩
      , ⟨"p.P2", "p2", some ["ToolProviderProtocol"], none⟩ ]
      [] [] rfl rfl (by decide) rfl
  · decide

/- ### The fixed-point instantiation loop under a genuine cycle (C4). -/

theorem strStartsWith_append (p s : String) : strStartsWith (p ++ s) p = true := by
  simp [strStartsWith, String.data_append]

/- Override instances live under keys override_{idx}; a module id that does
   not start with "override_" is never among them. -/
theorem initOverrideInsts_hasKey (ob : List (OverrideKey × PyVal)) (B : String)
    (hB : strStartsWith B "override_" = false) :
    hasKey (initOverrideInsts ob) B = false := by
  rw [hasKey, List.any_eq_false]
  intro kv hkv
  simp only [initOverrideInsts, List.mem_map] at hkv
  obtain ⟨iv, hiv, rfl⟩ := hkv
  intro hbeq
  have heq : "override_" ++ toString iv.1 = B := eq_of_beq hbeq
  rw [← heq, strStartsWith_append] at hB
  cases hB

theorem depsSatisfied_false (exs : List ExchangeConfig) (mid : String)
    (insts : List (String × PyVal)) (e0 : ExchangeConfig)
    (he : e0 ∈ exs) (hm : e0.module = mid)
    (hk : hasKey insts e0.provider = false) :
    depsSatisfied exs mid insts = false := by
  rw [depsSatisfied, List.all_eq_false]
  refine ⟨e0, he, ?_⟩
  rw [hm, hk]
  simp

/- A pass in which every listed module is blocked (truthy uses, unsatisfied
   dependency check) instantiates nothing and reports no progress. -/
theorem instPass_all_blocked (env : Env) (cfg : AgentConfig)
    (ovrs : List (OverrideKey × String)) :
    ∀ (ms : List ModuleConfig) (insts : List (String × PyVal)) (rem : List String)
      (prog : Bool) (log : List BuildRecord),
      (∀ mc ∈ ms, usesTruthy mc = true
          ∧ depsSatisfied cfg.exchangeList mc.id insts = false) →
      instPass env cfg ovrs ms insts rem prog log = .ok (insts, rem, prog, log) := by
  intro ms
  induction ms with
  | nil => intro insts rem prog log h; rfl
  | cons mc ms ih =>
    intro insts rem prog log h
    obtain ⟨hu, hs⟩ := h mc (List.mem_cons_self mc ms)
    have htail := fun mc2 hm2 => h mc2 (List.mem_cons.mpr (Or.inr hm2))
    by_cases hr : mc.id ∈ rem
    · simp only [instPass]
      rw [if_neg (not_not_intro hr), hu, hs]
      simp only [Bool.not_false, Bool.and_true, if_true]
      exact ih insts rem prog log htail
    · simp only [instPass]
      rw [if_pos hr]
      exact ih insts rem prog log htail

/-- C4 (status: corrected; amended claim).  If module A requires a capability
provided only by B (exchange edge A -> B) and B one provided only by A
(edge B -> A), then _instantiate_modules fails with the circular-dependency
ValueError naming the remaining (uninstantiated) module set {A, B} — and it
does so for EVERY caller-supplied override binding: the dependency check of
the loop consults module_instances keys, where overrides are stored under
override_{idx}, so an override never cuts an edge whose provider is a module
id, contrary to the original claim's second half. -/
theorem c4_cycle_error (env : Env) (cfg : AgentConfig) (mA mB : ModuleConfig)
    (X Y : String) (ob : List (OverrideKey × PyVal))
    (hmods : cfg.modules = [mA, mB])
    (hAB : mA.id ≠ mB.id)
    (hAuses : usesTruthy mA = true)
    (hBuses : usesTruthy mB = true)
    (hedge1 : (⟨mA.id, X, mB.id⟩ : ExchangeConfig) ∈ cfg.exchangeList)
    (hedge2 : (⟨mB.id, Y, mA.id⟩ : ExchangeConfig) ∈ cfg.exchangeList)
    (hA : strStartsWith mA.id "override_" = false)
    (hB : strStartsWith mB.id "override_" = false) :
    instantiate_modules env cfg ob
      = .error (.circularDependency [mA.id, mB.id]) := by
  have hkA := initOverrideInsts_hasKey ob mA.id hA
  have hkB := initOverrideInsts_hasKey ob mB.id hB
  have hdsA := depsSatisfied_false cfg.exchangeList mA.id (initOverrideInsts ob)
    _ hedge1 rfl hkB
  have hdsB := depsSatisfied_false cfg.exchangeList mB.id (initOverrideInsts ob)
    _ hedge2 rfl hkA
  have hblocked : ∀ mc ∈ cfg.modules, usesTruthy mc = true
      ∧ depsSatisfied cfg.exchangeList mc.id (initOverrideInsts ob) = false := by
    rw [hmods]
    intro mc hmc
    rcases List.mem_cons.mp hmc with rfl | hmc2
    · exact ⟨hAuses, hdsA⟩
    · rcases List.mem_singleton.mp hmc2 with rfl
      exact ⟨hBuses, hdsB⟩
  have hpass := instPass_all_blocked env cfg (initOverrideMap ob) cfg.modules
    (initOverrideInsts ob) [mA.id, mB.id] false [] hblocked
  have hdedup : ((cfg.modules.map (·.id)).dedup : List String)
      = [mA.id, mB.id] := by
    rw [hmods]
    simp only [List.map_cons, List.map_nil]
    exact List.dedup_eq_self.mpr (by simp [hAB])
  have hloop : instLoopF env cfg (initOverrideMap ob)
      (([mA.id, mB.id] : List String).length + 1) (initOverrideInsts ob)
      [mA.id, mB.id] []
      = .error (.circularDependency [mA.id, mB.id]) := by
    simp only [instLoopF]
    rw [if_neg (by simp), hpass]
    rfl
  simp only [instantiate_modules, bind, Except.bind]
  rw [hdedup, hloop]

/-- C4 counterexample: on the concrete two-module cycle, supplying an
override binding that satisfies the XProto edge does not allow instantiation
to succeed — it still fails with the circular-dependency error naming
{a, b}, exactly as without the override. -/
theorem c4_override_does_not_cut :
    instantiate_modules c4env c4cfg c4override
      = .error (.circularDependency ["a", "b"])
    ∧ instantiate_modules c4env c4cfg []
      = .error (.circularDependency ["a", "b"]) := by
  exact ⟨rfl, rfl⟩

/-- C4 witness: the amended theorem applied to the concrete cycle with the
concrete override binding. -/
theorem c4_cycle_error_witness :
    instantiate_modules c4env c4cfg c4override
      = .error (.circularDependency [c4mA.id, c4mB.id]) :=
  c4_cycle_error c4env c4cfg c4mA c4mB "XProto" "YProto" c4override rfl
    (by decide) rfl rfl (by decide) (by decide) (by decide) (by decide)

/- ### Proxy-wrapping of constructor dependencies (C3). -/

theorem assocUpd_lookup_self (k : String) (v : β) :
    ∀ d : List (String × β), List.lookup k (assocUpd d k v) = some v := by
  intro d
  induction d with
  | nil => simp [assocUpd, List.lookup]
  | cons kv rest ih =>
    obtain ⟨k', v'⟩ := kv
    by_cases h : k' = k
    · subst h
      simp [assocUpd, List.lookup]
    · have hb : (k == k') = false := beq_eq_false_iff_ne.mpr fun he => h he.symm
      simp only [assocUpd]
      rw [if_neg h]
      simp [List.lookup, hb, ih]

theorem assocUpd_lookup_ne (k k' : String) (v : β) (h : k' ≠ k) :
    ∀ d : List (String × β),
      List.lookup k' (assocUpd d k v) = List.lookup k' d := by
  intro d
  induction d with
  | nil =>
    have hb : (k' == k) = false := beq_eq_false_iff_ne.mpr h
    simp [assocUpd, List.lookup, hb]
  | cons kv rest ih =>
    obtain ⟨k2, v2⟩ := kv
    by_cases h2 : k2 = k
    · subst h2
      have hb : (k' == k2) = false := beq_eq_false_iff_ne.mpr h
      simp [assocUpd, List.lookup, hb]
    · simp only [assocUpd]
      rw [if_neg h2]
      by_cases h3 : k' = k2
      · subst h3
        simp [List.lookup]
      · have hb : (k' == k2) = false := beq_eq_false_iff_ne.mpr h3
        simp [List.lookup, hb, ih]

/- Every dependency value handed back by _get_proxied_dependencies is
   wrapped in a Proxy. -/
theorem get_proxied_dependencies_proxy (aid : String)
    (insts : List (String × PyVal)) (caller : String) :
    ∀ (deps res : List (String × PyVal)),
      get_proxied_dependencies aid insts caller deps = .ok res →
      ∀ kv ∈ res, kv.2.isProxy = true := by
  intro deps
  induction deps with
  | nil =>
    intro res h kv hkv
    cases h
    cases hkv
  | cons d ds ih =>
    intro res h kv hkv
    simp only [get_proxied_dependencies] at h
    rcases hrk : revKey insts d.2 with _ | mkey <;> rw [hrk] at h
    · cases h
    · simp only [bind, Except.bind] at h
      rcases hrec : get_proxied_dependencies aid insts caller ds with e | rest <;>
        rw [hrec] at h
      · cases h
      · cases h
        rcases List.mem_cons.mp hkv with rfl | hkv2
        · rfl
        · exact ih rest hrec kv hkv2

/- One pass preserves the all-dependencies-proxied property of the build
   log. -/
theorem instPass_log (env : Env) (cfg : AgentConfig)
    (ovrs : List (OverrideKey × String)) :
    ∀ (ms : List ModuleConfig) (insts : List (String × PyVal)) (rem : List String)
      (prog : Bool) (log : List BuildRecord)
      (insts' : List (String × PyVal)) (rem' : List String) (prog' : Bool)
      (log' : List BuildRecord),
      instPass env cfg ovrs ms insts rem prog log = .ok (insts', rem', prog', log') →
      (∀ r ∈ log, ∀ kv ∈ r.deps, kv.2.isProxy = true) →
      (∀ r ∈ log', ∀ kv ∈ r.deps, kv.2.isProxy = true) := by
  intro ms
  induction ms with
  | nil =>
    intro insts rem prog log insts' rem' prog' log' h hlog
    cases h
    exact hlog
  | cons mc ms ih =>
    intro insts rem prog log insts' rem' prog' log' h hlog
    simp only [instPass] at h
    by_cases hr : mc.id ∉ rem
    · rw [if_pos hr] at h
      exact ih _ _ _ _ _ _ _ _ h hlog
    · rw [if_neg hr] at h
      by_cases hb : (usesTruthy mc && !depsSatisfied cfg.exchangeList mc.id insts) = true
      · rw [if_pos hb] at h
        exact ih _ _ _ _ _ _ _ _ h hlog
      · rw [if_neg hb] at h
        rcases hic : importClass env mc.module with _ | cls <;> rw [hic] at h
        · cases h
        · simp only [] at h
          by_cases hu : usesTruthy mc = true
          · rw [if_pos hu] at h
            simp only [bind, Except.bind] at h
            rcases h1 : get_module_dependencies insts mc.id cls cfg.exchangeList []
              with e | deps <;> rw [h1] at h
            · cases h
            simp only [] at h
            rcases h2 : get_overrides_by_type insts ovrs cls.initAnnotations deps
              with e | deps2 <;> rw [h2] at h
            · cases h
            simp only [] at h
            rcases h3 : get_proxied_dependencies cfg.id insts mc.id deps2
              with e | pdeps <;> rw [h3] at h
            · cases h
            simp only [] at h
            refine ih _ _ _ _ _ _ _ _ h ?_
            intro r hr2 kv hkv
            rcases List.mem_append.mp hr2 with hr2 | hr2
            · exact hlog r hr2 kv hkv
            · have hre : r = ⟨mc.id, pdeps⟩ := List.mem_singleton.mp hr2
              subst hre
              exact get_proxied_dependencies_proxy cfg.id insts mc.id deps2 pdeps
                h3 kv hkv
          · rw [if_neg hu] at h
            refine ih _ _ _ _ _ _ _ _ h ?_
            intro r hr2 kv hkv
            rcases List.mem_append.mp hr2 with hr2 | hr2
            · exact hlog r hr2 kv hkv
            · have hre : r = ⟨mc.id, []⟩ := List.mem_singleton.mp hr2
              subst hre
              cases hkv

/- The fixed-point loop preserves the all-dependencies-proxied property. -/
theorem instLoopF_log (env : Env) (cfg : AgentConfig)
    (ovrs : List (OverrideKey × String)) :
    ∀ (fuel : Nat) (insts : List (String × PyVal)) (rem : List String)
      (log : List BuildRecord) (insts' : List (String × PyVal))
      (log' : List BuildRecord),
      instLoopF env cfg ovrs fuel insts rem log = .ok (insts', log') →
      (∀ r ∈ log, ∀ kv ∈ r.deps, kv.2.isProxy = true) →
      (∀ r ∈ log', ∀ kv ∈ r.deps, kv.2.isProxy = true) := by
  intro fuel
  induction fuel with
  | zero =>
    intro insts rem log insts' log' h
    cases h
  | succ fuel ih =>
    intro insts rem log insts' log' h hlog
    simp only [instLoopF] at h
    by_cases hre : rem.isEmpty = true
    · rw [if_pos hre] at h
      cases h
      exact hlog
    · rw [if_neg hre] at h
      rcases hp : instPass env cfg ovrs cfg.modules insts rem false log
        with e | q <;> rw [hp] at h
      · cases h
      · obtain ⟨insts2, rem2, prog, log2⟩ := q
        cases prog with
        | false => cases h
        | true =>
          exact ih insts2 rem2 log2 insts' log' h
            (instPass_log env cfg ovrs _ _ _ _ _ _ _ _ _ hp hlog)

/- Where the stored entry instance comes from: the provider's entry in the
   instance dict, unwrapped. -/
theorem get_entry_module_spec (insts : List (String × PyVal)) :
    ∀ (exs : List ExchangeConfig) (acc : Option PyVal) (v : PyVal),
      get_entry_module insts exs acc = .ok v →
      (∃ e ∈ exs, e.module = "__entry__" ∧ List.lookup e.provider insts = some v)
      ∨ acc = some v := by
  intro exs
  induction exs with
  | nil =>
    intro acc v h
    cases acc with
    | none => cases h
    | some w => cases h; exact Or.inr rfl
  | cons e exs ih =>
    intro acc v h
    simp only [get_entry_module] at h
    by_cases hc : (e.module == "__entry__") = true
    · rw [if_pos hc] at h
      cases acc with
      | some w => cases h
      | none =>
        rcases hl : List.lookup e.provider insts with _ | w <;> rw [hl] at h
        · cases h
        · rcases ih (some w) v h with ⟨e2, he2, hm2, hl2⟩ | hacc
          · exact Or.inl ⟨e2, List.mem_cons.mpr (Or.inr he2), hm2, hl2⟩
          · have hw : w = v := Option.some.inj hacc
            subst hw
            exact Or.inl ⟨e, List.mem_cons_self e exs, eq_of_beq hc, hl⟩
    · rw [if_neg hc] at h
      rcases ih acc v h with ⟨e2, he2, hm2, hl2⟩ | hacc
      · exact Or.inl ⟨e2, List.mem_cons.mpr (Or.inr he2), hm2, hl2⟩
      · exact Or.inr hacc

/-- C3 (status: corrected; amended claim).  In every successful activation,
every dependency instance handed to a module constructor is wrapped in the
instrumentation Proxy (the build log records the proxied kwargs), and every
handle returned by Exchange.get_module is freshly Proxy-wrapped; but the
instance stored in the module map under the reserved id "__entry__" is the
very same raw value stored under the entry provider's id — _get_entry_module
returns module_instances[provider] without wrapping it, contrary to the
original claim. -/
theorem c3_proxied_dependencies (env : Env) (cfg : AgentConfig)
    (ob : List (OverrideKey × PyVal)) (mp : List (String × PyVal))
    (log : List BuildRecord)
    (h : instantiate_modules env cfg ob = .ok (mp, log)) :
    (∀ r ∈ log, ∀ kv ∈ r.deps, kv.2.isProxy = true)
    ∧ (∀ (aid : String) (insts : List (String × PyVal)) (name caller : String)
        (v : PyVal), Exchange.get_module aid insts name caller = some v →
          v.isProxy = true)
    ∧ ∃ e ∈ cfg.exchangeList, e.module = "__entry__"
        ∧ ∃ v, List.lookup "__entry__" mp = some v
            ∧ (e.provider ≠ "__entry__" → List.lookup e.provider mp = some v) := by
  simp only [instantiate_modules, bind, Except.bind] at h
  rcases hl : instLoopF env cfg (initOverrideMap ob)
      ((cfg.modules.map (·.id)).dedup.length + 1) (initOverrideInsts ob)
      ((cfg.modules.map (·.id)).dedup) []
    with e | q <;> rw [hl] at h
  · cases h
  · obtain ⟨insts1, log1⟩ := q
    simp only [] at h
    rcases he : get_entry_module insts1 cfg.exchangeList none
      with e | entry <;> rw [he] at h
    · cases h
    · simp only [] at h
      cases h
      refine ⟨?_, ?_, ?_⟩
      · exact instLoopF_log env cfg (initOverrideMap ob) _ _ _ _ _ _ hl
          (fun r hr => absurd hr (List.not_mem_nil r))
      · intro aid insts name caller v hv
        simp only [Exchange.get_module] at hv
        rcases hlk : List.lookup name insts with _ | w <;> rw [hlk] at hv
        · cases hv
        · cases hv
          rfl
      · rcases get_entry_module_spec insts1 cfg.exchangeList none entry he
          with ⟨e, he2, hm2, hl2⟩ | hacc
        · refine ⟨e, he2, hm2, entry, assocUpd_lookup_self _ _ insts1, ?_⟩
          intro hne
          rw [assocUpd_lookup_ne _ _ _ hne insts1]
          exact hl2
        · cases hacc

/-- C3 counterexample: in the concrete echo activation the value stored
under the reserved entry id "__entry__" is the raw Echo instance, not a
Proxy — consumers reading the module map receive an un-instrumented
instance, contradicting the original claim. -/
theorem c3_entry_stored_unwrapped :
    ∃ mp log v, instantiate_modules c3env c3cfg [] = .ok (mp, log)
      ∧ List.lookup "__entry__" mp = some v
      ∧ v.isProxy = false := by
  exact ⟨_, _, _, rfl, rfl, rfl⟩

/-- C3 witness: the amended theorem applied to the concrete echo
activation. -/
theorem c3_proxied_dependencies_witness :
    ∃ mp log, instantiate_modules c3env c3cfg [] = .ok (mp, log)
      ∧ ((∀ r ∈ log, ∀ kv ∈ r.deps, kv.2.isProxy = true)
        ∧ (∀ (aid : String) (insts : List (String × PyVal)) (name caller : String)
            (v : PyVal), Exchange.get_module aid insts name caller = some v →
              v.isProxy = true)
        ∧ ∃ e ∈ c3cfg.exchangeList, e.module = "__entry__"
            ∧ ∃ v, List.lookup "__entry__" mp = some v
                ∧ (e.provider ≠ "__entry__" → List.lookup e.provider mp = some v)) := by
  exact ⟨_, _, rfl, c3_proxied_dependencies c3env c3cfg [] _ _ rfl⟩

end Xaibo
